import Mathlib

/-!
# Live-log streaming handler (`web/handlers/logs_live.go`)

A shallow embedding of `LiveLogsHandler.ServeHTTP`, `getPipelineRunBuild`,
`LiveLogsHandler.send` and `LiveLogsHandler.getPipelineRuns`.

The handler talks to external collaborators (activity store, execution list
surface, log producer, push broker, cancellation signals, id generator, and a
few library string functions).  They are gathered in the record `Env`; every
observable effect of the handler is appended to the record `World`, which is
threaded through the code in program order.
-/

set_option maxRecDepth 100000

namespace LiveLogs

/-! ## Data model -/

/-- Contents of a non-nil Go `map[string]string`, as an association list. -/
abbrev LabelMap := List (String × String)

/-- Go map indexing `m[k]` on a possibly nil map: the zero value `""` when the
map is nil or the key is absent. -/
def mapIndex (m : Option LabelMap) (k : String) : String :=
  match m with
  | none => ""
  | some l => (l.lookup k).getD ""

/-- The part of `jenkinsv1.PipelineActivity` the handler reads. -/
structure PipelineActivity where
  Name : String
  Labels : Option LabelMap
  deriving DecidableEq, Repr

/-- The part of `tknv1.PipelineRun` the handler reads. -/
structure PipelineRun where
  Name : String
  Labels : Option LabelMap
  deriving DecidableEq, Repr

/-- The value `sse.StringEvent` pushed to a viewer connection. -/
structure StringEvent where
  Id : String
  Event : String
  Data : String
  deriving DecidableEq, Repr

/-- Status line and body written to the `http.ResponseWriter`. -/
structure Response where
  status : Nat
  body : String
  deriving DecidableEq, Repr

/-- An error of the activity store; `isNotFound` is what `errors.IsNotFound`
reports for it and `msg` is its `Error()` text. -/
structure GetError where
  isNotFound : Bool
  msg : String
  deriving DecidableEq, Repr

/-- Outcome of a fallible external call: the error text or the value. -/
inductive Outcome (α : Type) where
  | fail (msg : String)
  | ok (val : α)
  deriving DecidableEq, Repr

/-- The path variables `mux.Vars(r)` of the request. -/
structure Request where
  owner : String
  repo : String
  branch : String
  build : String
  ns : String
  deriving DecidableEq, Repr

/-! ## `k8s.io/apimachinery/pkg/labels`

The two functions of the Kubernetes labels package with which the handler
builds its selectors, written out from their library definitions.  The parsing
function `ConvertSelectorToLabelsMap` is a field of `Env`. -/

/-- Assignment `m[k] = v` on a Go map. -/
def mapSet : LabelMap → String → String → LabelMap
  | [], k, v => [(k, v)]
  | (k0, v0) :: rest, k, v =>
    if k0 = k then (k, v) :: rest else (k0, v0) :: mapSet rest k v

/-- The function `labels.Merge(labels1, labels2)`: a fresh map holding
`labels1`, then overwritten with every pair of `labels2`. -/
def Merge (labels1 labels2 : LabelMap) : LabelMap :=
  labels2.foldl (fun m kv => mapSet m kv.1 kv.2)
    (labels1.foldl (fun m kv => mapSet m kv.1 kv.2) [])

/-- Lexicographic comparison of two character sequences by code point, which
for UTF-8 text is the bytewise order of Go's string `<`. -/
def charsLt : List Char → List Char → Bool
  | _, [] => false
  | [], _ :: _ => true
  | a :: as, b :: bs =>
    if a.toNat < b.toNat then true
    else if b.toNat < a.toNat then false
    else charsLt as bs

/-- Go's `a < b` on strings. -/
def strLt (a b : String) : Bool := charsLt a.toList b.toList

/-- Insertion of a pair into a list of pairs sorted by key. -/
def insertSorted (x : String × String) : LabelMap → LabelMap
  | [] => [x]
  | y :: ys => if strLt x.1 y.1 then x :: y :: ys else y :: insertSorted x ys

/-- The pairs of a map in ascending order of their keys (`sort.Strings(keys)`). -/
def sortByKey : LabelMap → LabelMap
  | [] => []
  | x :: xs => insertSorted x (sortByKey xs)

/-- The function `labels.FormatLabels`: the pairs in ascending key order, each
written `key=value`, joined with commas, or `<none>` for an empty map. -/
def FormatLabels (labelMap : LabelMap) : String :=
  let l := ",".intercalate ((sortByKey labelMap).map fun kv => kv.1 ++ "=" ++ kv.2)
  if l = "" then "<none>" else l

/-! ## `getPipelineRunBuild` -/

/-- The function `getPipelineRunBuild(pa, build)`. -/
def getPipelineRunBuild (pa : PipelineActivity) (build : String) : String :=
  match pa.Labels with
  | some _ =>
    let answer := mapIndex pa.Labels "lighthouse.jenkins-x.io/buildNum"
    if answer ≠ "" then answer else build
  | none => build

/-! ## External collaborators and the effect log -/

/-- The collaborators of one handler invocation.  Calls whose answer may change
while the request is served are indexed by the number of earlier calls of the
same kind, so that any sequence of answers can be represented. -/
structure Env where
  /-- The library function `strings.ToUpper`. -/
  ToUpper : String → String
  /-- The library function `naming.ToValidName`. -/
  ToValidName : String → String
  /-- The library function `labels.ConvertSelectorToLabelsMap`. -/
  ConvertSelectorToLabelsMap : String → Outcome LabelMap
  /-- The handler field `DefaultJXNamespace`. -/
  DefaultJXNamespace : String
  /-- The call `PipelineActivities(namespace).Get(ctx, name, ..)`. -/
  activityGet : String → String → Except GetError PipelineActivity
  /-- The call `PipelineRuns(namespace).List(ctx, ..)`: number of earlier list
  calls, namespace, label selector. -/
  pipelineRunsList : Nat → String → String → Outcome (List PipelineRun)
  /-- The call `Broker.Connect(id, w, r)`: `none` when the connection is opened,
  otherwise the response the broker has already written. -/
  brokerConnect : String → Option Response
  /-- One complete consumption of `logger.GetRunningBuildLogs(ctx, pa, prs, name)`
  for the logger of the given namespace: number of earlier runs, namespace,
  activity, executions, name; yields the finite sequence of lines read from the
  channel and the value `logger.Err()` reports once the channel is closed. -/
  GetRunningBuildLogs :
    Nat → String → PipelineActivity → List PipelineRun → String → List String × Option String
  /-- Whether `clientConnection.Done()` is closed when the `k`-th call of `send`
  (counted from zero) performs its check. -/
  connDone : Nat → Bool
  /-- Whether `r.Context().Done()` is closed when the `k`-th call of `send`
  performs its check. -/
  ctxDone : Nat → Bool
  /-- The `k`-th value of `xid.New().String()`. -/
  xid : Nat → String

/-- The three results of `getPipelineRuns`. -/
structure LocateResult where
  pipelineruns : List PipelineRun
  labelSelector : String
  err : Option String
  deriving DecidableEq, Repr

/-- One call of `getPipelineRuns` made by the handler: its arguments and what
it returned. -/
structure LocateCall where
  owner : String
  repo : String
  branch : String
  build : String
  ns : String
  extraSelectors : List String
  result : LocateResult
  deriving DecidableEq, Repr

/-- One `PipelineRuns(namespace).List` query with its answer. -/
structure ListQuery where
  ns : String
  labelSelector : String
  result : Outcome (List PipelineRun)
  deriving DecidableEq, Repr

/-- One run of the log producer: its arguments, the lines it yielded, and what
`logger.Err()` returns once its channel is closed. -/
structure ProducerRun where
  pipelineruns : List PipelineRun
  name : String
  lines : List String
  err : Option String
  deriving DecidableEq, Repr

/-- Everything the handler has done so far, each list in program order. -/
structure World where
  /-- Namespace and name of every activity lookup. -/
  activityGets : List (String × String)
  /-- Every call of `getPipelineRuns` made by the handler. -/
  locateCalls : List LocateCall
  /-- Every list query. -/
  listQueries : List ListQuery
  /-- The client id of every `Broker.Connect` call. -/
  connects : List String
  /-- The client id of the viewer connection, once one is open. -/
  connection : Option String
  /-- Every run of the log producer. -/
  runs : List ProducerRun
  /-- What `logger.Err()` currently returns. -/
  loggerErr : Option String
  /-- Number of calls of `send`. -/
  sendCalls : Nat
  /-- Number of values drawn from `xid.New()`. -/
  idsDrawn : Nat
  /-- The events pushed through `clientConnection.Send`. -/
  events : List StringEvent
  /-- For each pushed event, the index of the `send` call that pushed it. -/
  pushedAt : List Nat
  /-- The status response written, if any. -/
  response : Option Response
  /-- Whether the handler has reached its final `select` on the two done
  signals. -/
  awaitingDone : Bool
  deriving DecidableEq, Repr

/-- The world at handler entry. -/
def World.init : World :=
  { activityGets := [], locateCalls := [], listQueries := [], connects := [],
    connection := none, runs := [], loggerErr := none, sendCalls := 0, idsDrawn := 0,
    events := [], pushedAt := [], response := none, awaitingDone := false }

/-- Type tag and payload of an event, without its id. -/
def payload (e : StringEvent) : String × String := (e.Event, e.Data)

/-! ## `LiveLogsHandler.send` -/

/-- The method `send(ctx, clientConnection, eventType, eventData)`: a `select`
over the two done channels with a `default` branch that pushes the event. -/
def send (env : Env) (w : World) (eventType eventData : String) : World :=
  let w1 := { w with sendCalls := w.sendCalls + 1 }
  if env.connDone w.sendCalls then w1
  else if env.ctxDone w.sendCalls then w1
  else
    { w1 with
      idsDrawn := w.idsDrawn + 1
      events := w.events ++ [{ Id := env.xid w.idsDrawn, Event := eventType, Data := eventData }]
      pushedAt := w.pushedAt ++ [w.sendCalls] }

/-- The body of the streaming loop applied to every line in turn. -/
def sendLines (env : Env) (w : World) (lines : List String) : World :=
  lines.foldl (fun w line => send env w "log" line) w

/-! ## `LiveLogsHandler.getPipelineRuns` -/

/-- The loop over `extraSelectors` at the head of `getPipelineRuns`. -/
def mergeExtraSelectors (env : Env) : List String → LabelMap → Outcome LabelMap
  | [], extraLabelSet => .ok extraLabelSet
  | extraSelector :: rest, extraLabelSet =>
    match env.ConvertSelectorToLabelsMap extraSelector with
    | .fail err => .fail err
    | .ok labelSet => mergeExtraSelectors env rest (Merge extraLabelSet labelSet)

/-- The label map literal of the current labelling schema. -/
def currentLabelSet (owner repo branch build : String) : LabelMap :=
  [("lighthouse.jenkins-x.io/refs.org", owner),
   ("lighthouse.jenkins-x.io/refs.repo", repo),
   ("lighthouse.jenkins-x.io/branch", branch),
   ("lighthouse.jenkins-x.io/buildNum", build)]

/-- The label map literal of the old labelling schema. -/
def legacyLabelSet (owner repo branch build : String) : LabelMap :=
  [("owner", owner), ("repository", repo), ("branch", branch), ("build", build)]

/-- One list query against the cluster, recorded in the world. -/
def listQuery (env : Env) (w : World) (ns labelSelector : String) :
    Outcome (List PipelineRun) × World :=
  let result := env.pipelineRunsList w.listQueries.length ns labelSelector
  (result, { w with listQueries := w.listQueries ++ [⟨ns, labelSelector, result⟩] })

/-- The method `getPipelineRuns(ctx, owner, repo, branch, build, namespace,
extraSelectors...)`.  Inside the fallback block the source declares a new
`labelSelector` with `:=`; it is `legacySelector` here, and the outer
`labelSelector` is the one returned on success. -/
def getPipelineRuns (env : Env) (w : World) (owner repo branch build ns : String)
    (extraSelectors : List String) : LocateResult × World :=
  match mergeExtraSelectors env extraSelectors [] with
  | .fail err => (⟨[], "", some err⟩, w)
  | .ok extraLabelSet =>
    let labelSet := currentLabelSet owner repo branch build
    let labelSelector := FormatLabels (Merge extraLabelSet labelSet)
    match listQuery env w ns labelSelector with
    | (.fail err, w) => (⟨[], labelSelector, some err⟩, w)
    | (.ok items, w) =>
      if items.length = 0 then
        let legacySet := legacyLabelSet owner repo branch build
        let legacySelector := FormatLabels (Merge extraLabelSet legacySet)
        match listQuery env w ns legacySelector with
        | (.fail err, w) => (⟨[], legacySelector, some err⟩, w)
        | (.ok items, w) => (⟨items, labelSelector, none⟩, w)
      else (⟨items, labelSelector, none⟩, w)

/-- A call of `getPipelineRuns` from the handler, entered in `locateCalls`
together with its result. -/
def locate (env : Env) (w : World) (owner repo branch build ns : String)
    (extraSelectors : List String) : LocateResult × World :=
  let out := getPipelineRuns env w owner repo branch build ns extraSelectors
  (out.1, { out.2 with
    locateCalls := out.2.locateCalls ++ [⟨owner, repo, branch, build, ns, extraSelectors, out.1⟩] })

/-! ## `LiveLogsHandler.ServeHTTP` -/

/-- The function `http.Error(w, msg, code)`. -/
def httpError (w : World) (msg : String) (code : Nat) : World :=
  { w with response := some ⟨code, msg ++ "\n"⟩ }

/-- The function `http.NotFound(w, r)`. -/
def httpNotFound (w : World) : World :=
  httpError w "404 page not found" 404

/-- The loop `for logLine := range logger.GetRunningBuildLogs(..)` whose body is
`h.send(r.Context(), clientConnection, "log", logLine.Line)`. -/
def streamLogs (env : Env) (w : World) (ns : String) (pa : PipelineActivity)
    (pipelineruns : List PipelineRun) (name : String) : World :=
  let out := env.GetRunningBuildLogs w.runs.length ns pa pipelineruns name
  let w := { w with runs := w.runs ++ [⟨pipelineruns, name, out.1, out.2⟩] }
  let w := sendLines env w out.1
  { w with loggerErr := out.2 }

/-- The branch as used by the handler (source lines 39 to 42). -/
def requestBranch (env : Env) (r : Request) : String :=
  if "pr-".toList.isPrefixOf r.branch.toList then env.ToUpper r.branch else r.branch

/-- The namespace as used by the handler (source lines 44 to 47). -/
def requestNamespace (env : Env) (r : Request) : String :=
  if r.ns = "" then env.DefaultJXNamespace else r.ns

/-- The activity name computed by the handler (source line 49). -/
def activityName (env : Env) (r : Request) : String :=
  env.ToValidName (r.owner ++ "-" ++ r.repo ++ "-" ++ requestBranch env r ++ "-" ++ r.build)

/-- The retry block of `ServeHTTP` (source lines 89 to 97), entered with the
world left by the first streaming loop. -/
def maybeRetry (env : Env) (w : World) (owner repo branch build ns : String)
    (pa : PipelineActivity) (pipelineruns : List PipelineRun) (name : String) : World :=
  if w.loggerErr = none ∧ pipelineruns.length = 1 ∧
      mapIndex ((pipelineruns.head?.map (·.Labels)).getD none) "jenkins.io/pipelineType" = "meta" then
    let located := locate env w owner repo branch build ns ["jenkins.io/pipelineType=build"]
    if located.1.pipelineruns.length > 0 then
      streamLogs env located.2 ns pa located.1.pipelineruns name
    else located.2
  else w

/-- The end of `ServeHTTP` (source lines 99 to 108).  The final `select` blocks
on the two done signals and has no effect of its own; reaching it is recorded
in `awaitingDone`. -/
def finish (env : Env) (w : World) : World :=
  let w :=
    match w.loggerErr with
    | some err => send env w "error" err
    | none => w
  let w := send env w "EOF" "End Of Feed"
  { w with awaitingDone := true }

/-- The part of `ServeHTTP` after the viewer connection is opened (source lines
79 to 108). -/
def stream (env : Env) (w : World) (owner repo branch build ns : String)
    (pa : PipelineActivity) (pipelineruns : List PipelineRun) (name : String) : World :=
  let w := streamLogs env w ns pa pipelineruns name
  let w := maybeRetry env w owner repo branch build ns pa pipelineruns name
  finish env w

/-- The method `ServeHTTP(w, r)`. -/
def ServeHTTP (env : Env) (r : Request) : World :=
  let owner := r.owner
  let repo := r.repo
  let branch := requestBranch env r
  let build := r.build
  let ns := requestNamespace env r
  let name := activityName env r
  let w := { World.init with activityGets := [(ns, name)] }
  match env.activityGet ns name with
  | .error err =>
    if err.isNotFound then httpNotFound w
    else httpError w err.msg 500
  | .ok pa =>
    let prBuild := getPipelineRunBuild pa build
    let located := locate env w owner repo branch prBuild ns []
    let w := located.2
    match located.1.err with
    | some err => httpError w err 500
    | none =>
      if located.1.pipelineruns.length = 0 then
        httpError w ("no PipelineRun found using labelSelector " ++ located.1.labelSelector) 425
      else
        let clientId := env.xid w.idsDrawn
        let w := { w with idsDrawn := w.idsDrawn + 1, connects := w.connects ++ [clientId] }
        match env.brokerConnect clientId with
        | some resp => { w with response := some resp }
        | none =>
          stream env { w with connection := some clientId } owner repo branch build ns pa
            located.1.pipelineruns name

/-! ## Concrete collaborators used in the examples -/

/-- Upper-casing of the ASCII letters of a string. -/
def asciiUpper (s : String) : String := String.mk (s.toList.map Char.toUpper)

/-- An execution labelled as a build pipeline. -/
def buildRun : PipelineRun := ⟨"run-build", some [("jenkins.io/pipelineType", "build")]⟩

/-- An execution labelled as a meta pipeline. -/
def metaRun : PipelineRun := ⟨"run-meta", some [("jenkins.io/pipelineType", "meta")]⟩

/-- A cluster in which the activity exists without labels, every list query
answers with the single build execution, the broker accepts the connection,
the producer yields three lines and no error, and no done signal fires. -/
def demoEnv : Env where
  ToUpper := asciiUpper
  ToValidName := fun s => s
  ConvertSelectorToLabelsMap := fun s =>
    if s = "jenkins.io/pipelineType=build" then .ok [("jenkins.io/pipelineType", "build")]
    else .fail "invalid selector"
  DefaultJXNamespace := "jx"
  activityGet := fun _ name => .ok ⟨name, none⟩
  pipelineRunsList := fun _ _ _ => .ok [buildRun]
  brokerConnect := fun _ => none
  GetRunningBuildLogs := fun _ _ _ _ _ => (["starting", "building", "done"], none)
  connDone := fun _ => false
  ctxDone := fun _ => false
  xid := fun k => String.mk (List.replicate (k + 1) 'x')

/-- The request of the end-to-end example of the specification. -/
def demoReq : Request := ⟨"acme", "widgets", "main", "5", ""⟩

/-- The cluster of `demoEnv` in which every list query succeeds with no
execution. -/
def emptyClusterEnv : Env :=
  { demoEnv with pipelineRunsList := fun _ _ _ => .ok [] }

/-- A cluster in which the activity carries the scheduler build `1629`, the
initial list query finds only the meta execution, a later list query finds the
build execution, and the producer yields one line per run and no error. -/
def metaEnv : Env :=
  { demoEnv with
    activityGet := fun _ name => .ok ⟨name, some [("lighthouse.jenkins-x.io/buildNum", "1629")]⟩
    pipelineRunsList := fun k _ _ => if k = 0 then .ok [metaRun] else .ok [buildRun]
    GetRunningBuildLogs := fun k _ _ _ _ =>
      if k = 0 then (["meta line"], none) else (["build line"], none) }

/-- The cluster of `metaEnv` in which the build execution never shows up: every
list query after the initial one answers with an empty list. -/
def metaOnlyEnv : Env :=
  { metaEnv with pipelineRunsList := fun k _ _ => if k = 0 then .ok [metaRun] else .ok [] }

/-- The cluster of `demoEnv` with the activity missing from the store. -/
def notFoundEnv : Env :=
  { demoEnv with activityGet := fun _ _ => .error ⟨true, "pipelineactivity not found"⟩ }

/-- The cluster of `demoEnv` with the activity store failing. -/
def storeDownEnv : Env :=
  { demoEnv with activityGet := fun _ _ => .error ⟨false, "connection refused"⟩ }

/-- The cluster of `demoEnv` with every list query failing. -/
def listDownEnv : Env :=
  { demoEnv with pipelineRunsList := fun _ _ _ => .fail "pipelineruns is forbidden" }

/-- The cluster of `demoEnv` with the viewer connection closed from the third
`send` call on. -/
def hangUpEnv : Env :=
  { demoEnv with connDone := fun k => decide (2 ≤ k) }

/-! ## Auxiliary predicates and intermediate worlds -/

/-- No done signal is ever observed by a `send`. -/
def NeverDone (env : Env) : Prop :=
  ∀ k, env.connDone k = false ∧ env.ctxDone k = false

/-- The selector of the current-schema query of a call. -/
def currentSelector (extraLabelSet : LabelMap) (owner repo branch build : String) : String :=
  FormatLabels (Merge extraLabelSet (currentLabelSet owner repo branch build))

/-- The selector of the legacy-schema query of a call. -/
def legacySelector (extraLabelSet : LabelMap) (owner repo branch build : String) : String :=
  FormatLabels (Merge extraLabelSet (legacyLabelSet owner repo branch build))

/-- The events that close a stream: the error event, if the producer holds an
error, and the end-of-feed event. -/
def closing (err : Option String) : List (String × String) :=
  (match err with
    | some e => [("error", e)]
    | none => []) ++ [("EOF", "End Of Feed")]

/-- The condition under which the handler retries with the build pipeline,
read on the error left by the first producer run and the initial executions. -/
def RetryCondition (err : Option String) (pipelineruns : List PipelineRun) : Prop :=
  err = none ∧ ∃ p, pipelineruns = [p] ∧ mapIndex p.Labels "jenkins.io/pipelineType" = "meta"

/-- The world in which the initial `getPipelineRuns` call is made. -/
def lookedUp (env : Env) (r : Request) : World :=
  { World.init with activityGets := [(requestNamespace env r, activityName env r)] }

/-- The initial `getPipelineRuns` call of the handler for a found activity. -/
def initialLocate (env : Env) (r : Request) (pa : PipelineActivity) : LocateResult × World :=
  locate env (lookedUp env r) r.owner r.repo (requestBranch env r)
    (getPipelineRunBuild pa r.build) (requestNamespace env r) []

/-- The world handed to the streaming phase. -/
def connected (env : Env) (r : Request) (pa : PipelineActivity) : World :=
  { (initialLocate env r pa).2 with
    idsDrawn := (initialLocate env r pa).2.idsDrawn + 1
    connects := (initialLocate env r pa).2.connects ++ [env.xid (initialLocate env r pa).2.idsDrawn]
    connection := some (env.xid (initialLocate env r pa).2.idsDrawn) }

/-- Every pushed event was pushed by an earlier `send` call whose check saw
neither done signal. -/
def PushInv (env : Env) (w : World) : Prop :=
  w.pushedAt.length = w.events.length ∧
  ∀ i ∈ w.pushedAt, i < w.sendCalls ∧ env.connDone i = false ∧ env.ctxDone i = false

/-- A label selector formatted from some extra label set merged with the
current-schema or the legacy-schema pairs of the given owner, repository and
branch. -/
def SelectorUses (owner repo branch : String) (labelSelector : String) : Prop :=
  ∃ (extra : LabelMap) (build : String),
    labelSelector = FormatLabels (Merge extra (currentLabelSet owner repo branch build)) ∨
    labelSelector = FormatLabels (Merge extra (legacyLabelSet owner repo branch build))

/-- The activity lookups are `gets`, and every locate call and every list query
so far uses the given branch. -/
def BranchInv (owner repo branch : String) (gets : List (String × String)) (w : World) : Prop :=
  w.activityGets = gets ∧
  (∀ c ∈ w.locateCalls, c.branch = branch) ∧
  (∀ q ∈ w.listQueries, SelectorUses owner repo branch q.labelSelector)

/-! ## Frame lemmas for `send` -/

theorem send_frame (env : Env) (w : World) (t d : String) :
    (send env w t d).activityGets = w.activityGets ∧
    (send env w t d).locateCalls = w.locateCalls ∧
    (send env w t d).listQueries = w.listQueries ∧
    (send env w t d).connects = w.connects ∧
    (send env w t d).connection = w.connection ∧
    (send env w t d).runs = w.runs ∧
    (send env w t d).loggerErr = w.loggerErr ∧
    (send env w t d).response = w.response ∧
    (send env w t d).awaitingDone = w.awaitingDone ∧
    (send env w t d).sendCalls = w.sendCalls + 1 := by
  unfold send
  by_cases h1 : env.connDone w.sendCalls = true
  · simp [h1]
  · by_cases h2 : env.ctxDone w.sendCalls = true
    · simp [h1, h2]
    · simp [h1, h2]

theorem sendLines_nil (env : Env) (w : World) : sendLines env w [] = w := rfl

theorem sendLines_cons (env : Env) (w : World) (l : String) (ls : List String) :
    sendLines env w (l :: ls) = sendLines env (send env w "log" l) ls := rfl

theorem sendLines_frame (env : Env) (lines : List String) : ∀ w : World,
    (sendLines env w lines).activityGets = w.activityGets ∧
    (sendLines env w lines).locateCalls = w.locateCalls ∧
    (sendLines env w lines).listQueries = w.listQueries ∧
    (sendLines env w lines).connects = w.connects ∧
    (sendLines env w lines).connection = w.connection ∧
    (sendLines env w lines).runs = w.runs ∧
    (sendLines env w lines).loggerErr = w.loggerErr ∧
    (sendLines env w lines).response = w.response ∧
    (sendLines env w lines).awaitingDone = w.awaitingDone ∧
    (sendLines env w lines).sendCalls = w.sendCalls + lines.length := by
  induction lines with
  | nil => intro w; simp [sendLines_nil]
  | cons l ls ih =>
    intro w
    rw [sendLines_cons]
    obtain ⟨h1, h2, h3, h4, h5, h6, h7, h8, h9, h10⟩ := ih (send env w "log" l)
    obtain ⟨g1, g2, g3, g4, g5, g6, g7, g8, g9, g10⟩ := send_frame env w "log" l
    refine ⟨h1.trans g1, h2.trans g2, h3.trans g3, h4.trans g4, h5.trans g5, h6.trans g6,
      h7.trans g7, h8.trans g8, h9.trans g9, ?_⟩
    rw [h10, g10, List.length_cons]; omega

theorem send_payload_of_neverDone (env : Env) (h : NeverDone env) (w : World) (t d : String) :
    (send env w t d).events.map payload = w.events.map payload ++ [(t, d)] := by
  unfold send
  simp [(h w.sendCalls).1, (h w.sendCalls).2, payload]

theorem sendLines_payload_of_neverDone (env : Env) (h : NeverDone env) (lines : List String) :
    ∀ w : World, (sendLines env w lines).events.map payload =
      w.events.map payload ++ lines.map (fun l => ("log", l)) := by
  induction lines with
  | nil => intro w; simp [sendLines_nil]
  | cons l ls ih =>
    intro w
    rw [sendLines_cons, ih, send_payload_of_neverDone env h]
    simp

/-! ## Frame lemmas for `getPipelineRuns`, `locate` and `streamLogs` -/

theorem getPipelineRuns_parse_fail (env : Env) (w : World) (owner repo branch build ns : String)
    (xs : List String) (err : String) (hp : mergeExtraSelectors env xs [] = .fail err) :
    getPipelineRuns env w owner repo branch build ns xs = (⟨[], "", some err⟩, w) := by
  simp [getPipelineRuns, hp]

theorem getPipelineRuns_current_fail (env : Env) (w : World) (owner repo branch build ns : String)
    (xs : List String) (extra : LabelMap) (err : String)
    (hp : mergeExtraSelectors env xs [] = .ok extra)
    (h0 : env.pipelineRunsList w.listQueries.length ns
      (currentSelector extra owner repo branch build) = .fail err) :
    getPipelineRuns env w owner repo branch build ns xs =
      (⟨[], currentSelector extra owner repo branch build, some err⟩,
        { w with listQueries := w.listQueries ++
          [⟨ns, currentSelector extra owner repo branch build, .fail err⟩] }) := by
  unfold currentSelector at h0
  simp [getPipelineRuns, listQuery, hp, h0, currentSelector]

theorem getPipelineRuns_current_found (env : Env) (w : World) (owner repo branch build ns : String)
    (xs : List String) (extra : LabelMap) (items : List PipelineRun)
    (hp : mergeExtraSelectors env xs [] = .ok extra)
    (h0 : env.pipelineRunsList w.listQueries.length ns
      (currentSelector extra owner repo branch build) = .ok items)
    (hne : items ≠ []) :
    getPipelineRuns env w owner repo branch build ns xs =
      (⟨items, currentSelector extra owner repo branch build, none⟩,
        { w with listQueries := w.listQueries ++
          [⟨ns, currentSelector extra owner repo branch build, .ok items⟩] }) := by
  unfold currentSelector at h0
  simp [getPipelineRuns, listQuery, hp, h0, currentSelector, hne]

theorem getPipelineRuns_legacy_fail (env : Env) (w : World) (owner repo branch build ns : String)
    (xs : List String) (extra : LabelMap) (err : String)
    (hp : mergeExtraSelectors env xs [] = .ok extra)
    (h0 : env.pipelineRunsList w.listQueries.length ns
      (currentSelector extra owner repo branch build) = .ok [])
    (h1 : env.pipelineRunsList (w.listQueries.length + 1) ns
      (legacySelector extra owner repo branch build) = .fail err) :
    getPipelineRuns env w owner repo branch build ns xs =
      (⟨[], legacySelector extra owner repo branch build, some err⟩,
        { w with listQueries := w.listQueries ++
          [⟨ns, currentSelector extra owner repo branch build, .ok []⟩,
           ⟨ns, legacySelector extra owner repo branch build, .fail err⟩] }) := by
  unfold currentSelector at h0
  unfold legacySelector at h1
  simp [getPipelineRuns, listQuery, hp, h0, h1, currentSelector, legacySelector]

theorem getPipelineRuns_legacy_ok (env : Env) (w : World) (owner repo branch build ns : String)
    (xs : List String) (extra : LabelMap) (items : List PipelineRun)
    (hp : mergeExtraSelectors env xs [] = .ok extra)
    (h0 : env.pipelineRunsList w.listQueries.length ns
      (currentSelector extra owner repo branch build) = .ok [])
    (h1 : env.pipelineRunsList (w.listQueries.length + 1) ns
      (legacySelector extra owner repo branch build) = .ok items) :
    getPipelineRuns env w owner repo branch build ns xs =
      (⟨items, currentSelector extra owner repo branch build, none⟩,
        { w with listQueries := w.listQueries ++
          [⟨ns, currentSelector extra owner repo branch build, .ok []⟩,
           ⟨ns, legacySelector extra owner repo branch build, .ok items⟩] }) := by
  unfold currentSelector at h0
  unfold legacySelector at h1
  simp [getPipelineRuns, listQuery, hp, h0, h1, currentSelector, legacySelector]

/-- The list queries of one `getPipelineRuns` call are appended to the world
and nothing else changes. -/
theorem getPipelineRuns_world (env : Env) (w : World) (owner repo branch build ns : String)
    (extraSelectors : List String) :
    ∃ qs : List ListQuery, qs.length ≤ 2 ∧
      (getPipelineRuns env w owner repo branch build ns extraSelectors).2 =
        { w with listQueries := w.listQueries ++ qs } := by
  cases hp : mergeExtraSelectors env extraSelectors [] with
  | fail err =>
    rw [getPipelineRuns_parse_fail env w owner repo branch build ns _ err hp]
    exact ⟨[], by simp, by simp⟩
  | ok extra =>
    cases h0 : env.pipelineRunsList w.listQueries.length ns
        (currentSelector extra owner repo branch build) with
    | fail err =>
      rw [getPipelineRuns_current_fail env w owner repo branch build ns _ extra err hp h0]
      exact ⟨[_], by simp, rfl⟩
    | ok items =>
      by_cases hi : items = []
      · subst hi
        cases h1 : env.pipelineRunsList (w.listQueries.length + 1) ns
            (legacySelector extra owner repo branch build) with
        | fail err =>
          rw [getPipelineRuns_legacy_fail env w owner repo branch build ns _ extra err hp h0 h1]
          exact ⟨[_, _], by simp, rfl⟩
        | ok items2 =>
          rw [getPipelineRuns_legacy_ok env w owner repo branch build ns _ extra items2 hp h0 h1]
          exact ⟨[_, _], by simp, rfl⟩
      · rw [getPipelineRuns_current_found env w owner repo branch build ns _ extra items hp h0 hi]
        exact ⟨[_], by simp, rfl⟩

theorem locate_world (env : Env) (w : World) (owner repo branch build ns : String)
    (extraSelectors : List String) :
    ∃ qs : List ListQuery, qs.length ≤ 2 ∧
      (locate env w owner repo branch build ns extraSelectors).2 =
        { w with
          listQueries := w.listQueries ++ qs
          locateCalls := w.locateCalls ++
            [⟨owner, repo, branch, build, ns, extraSelectors,
              (locate env w owner repo branch build ns extraSelectors).1⟩] } := by
  obtain ⟨qs, hlen, hq⟩ := getPipelineRuns_world env w owner repo branch build ns extraSelectors
  refine ⟨qs, hlen, ?_⟩
  simp only [locate, hq]

theorem streamLogs_eq (env : Env) (w : World) (ns : String) (pa : PipelineActivity)
    (prs : List PipelineRun) (name : String) :
    streamLogs env w ns pa prs name =
      { sendLines env
          { w with runs := w.runs ++ [⟨prs, name,
              (env.GetRunningBuildLogs w.runs.length ns pa prs name).1,
              (env.GetRunningBuildLogs w.runs.length ns pa prs name).2⟩] }
          (env.GetRunningBuildLogs w.runs.length ns pa prs name).1 with
        loggerErr := (env.GetRunningBuildLogs w.runs.length ns pa prs name).2 } := rfl

theorem streamLogs_frame (env : Env) (w : World) (ns : String) (pa : PipelineActivity)
    (prs : List PipelineRun) (name : String) :
    (streamLogs env w ns pa prs name).activityGets = w.activityGets ∧
    (streamLogs env w ns pa prs name).locateCalls = w.locateCalls ∧
    (streamLogs env w ns pa prs name).listQueries = w.listQueries ∧
    (streamLogs env w ns pa prs name).connects = w.connects ∧
    (streamLogs env w ns pa prs name).connection = w.connection ∧
    (streamLogs env w ns pa prs name).response = w.response ∧
    (streamLogs env w ns pa prs name).runs = w.runs ++ [⟨prs, name,
        (env.GetRunningBuildLogs w.runs.length ns pa prs name).1,
        (env.GetRunningBuildLogs w.runs.length ns pa prs name).2⟩] ∧
    (streamLogs env w ns pa prs name).loggerErr =
      (env.GetRunningBuildLogs w.runs.length ns pa prs name).2 := by
  rw [streamLogs_eq]
  obtain ⟨h1, h2, h3, h4, h5, h6, -, h8, -, -⟩ := sendLines_frame env
    (env.GetRunningBuildLogs w.runs.length ns pa prs name).1
    { w with runs := w.runs ++ [⟨prs, name,
        (env.GetRunningBuildLogs w.runs.length ns pa prs name).1,
        (env.GetRunningBuildLogs w.runs.length ns pa prs name).2⟩] }
  exact ⟨h1, h2, h3, h4, h5, h8, h6, rfl⟩

theorem streamLogs_payload (env : Env) (h : NeverDone env) (w : World) (ns : String)
    (pa : PipelineActivity) (prs : List PipelineRun) (name : String) :
    (streamLogs env w ns pa prs name).events.map payload =
      w.events.map payload ++
        (env.GetRunningBuildLogs w.runs.length ns pa prs name).1.map (fun l => ("log", l)) := by
  rw [streamLogs_eq]
  exact sendLines_payload_of_neverDone env h _ _

/-! ## The streaming phase without cancellation -/

theorem locate_frame (env : Env) (w : World) (owner repo branch build ns : String)
    (xs : List String) :
    (locate env w owner repo branch build ns xs).2.events = w.events ∧
    (locate env w owner repo branch build ns xs).2.runs = w.runs ∧
    (locate env w owner repo branch build ns xs).2.loggerErr = w.loggerErr ∧
    (locate env w owner repo branch build ns xs).2.connection = w.connection ∧
    (locate env w owner repo branch build ns xs).2.connects = w.connects ∧
    (locate env w owner repo branch build ns xs).2.response = w.response ∧
    (locate env w owner repo branch build ns xs).2.activityGets = w.activityGets ∧
    (locate env w owner repo branch build ns xs).2.sendCalls = w.sendCalls ∧
    (locate env w owner repo branch build ns xs).2.pushedAt = w.pushedAt ∧
    (locate env w owner repo branch build ns xs).2.idsDrawn = w.idsDrawn := by
  obtain ⟨qs, -, hq⟩ := locate_world env w owner repo branch build ns xs
  rw [hq]
  simp

theorem finish_payload (env : Env) (h : NeverDone env) (w : World) :
    (finish env w).events.map payload = w.events.map payload ++ closing w.loggerErr := by
  unfold finish
  simp only [send_payload_of_neverDone env h]
  cases w.loggerErr with
  | none => simp [closing]
  | some e => simp [closing, send_payload_of_neverDone env h]

theorem finish_frame (env : Env) (w : World) :
    (finish env w).runs = w.runs ∧
    (finish env w).loggerErr = w.loggerErr ∧
    (finish env w).locateCalls = w.locateCalls ∧
    (finish env w).connection = w.connection ∧
    (finish env w).listQueries = w.listQueries ∧
    (finish env w).activityGets = w.activityGets := by
  unfold finish
  cases he : w.loggerErr with
  | none =>
    obtain ⟨g1, g2, g3, -, g5, g6, g7, -⟩ := send_frame env w "EOF" "End Of Feed"
    exact ⟨g6, g7.trans he, g2, g5, g3, g1⟩
  | some e =>
    obtain ⟨g1, g2, g3, -, g5, g6, g7, -⟩ := send_frame env (send env w "error" e) "EOF" "End Of Feed"
    obtain ⟨k1, k2, k3, -, k5, k6, k7, -⟩ := send_frame env w "error" e
    exact ⟨g6.trans k6, g7.trans (k7.trans he), g2.trans k2, g5.trans k5, g3.trans k3, g1.trans k1⟩

theorem retryCondition_iff (err : Option String) (prs : List PipelineRun) :
    (err = none ∧ prs.length = 1 ∧
      mapIndex ((prs.head?.map (·.Labels)).getD none) "jenkins.io/pipelineType" = "meta") ↔
    RetryCondition err prs := by
  unfold RetryCondition
  constructor
  · rintro ⟨h1, h2, h3⟩
    refine ⟨h1, ?_⟩
    match prs, h2, h3 with
    | [p], _, h3 => exact ⟨p, rfl, by simpa using h3⟩
  · rintro ⟨h1, p, rfl, h3⟩
    exact ⟨h1, rfl, by simpa using h3⟩

theorem getPipelineRuns_err_nil (env : Env) (w : World) (owner repo branch build ns : String)
    (xs : List String)
    (h : (getPipelineRuns env w owner repo branch build ns xs).1.err ≠ none) :
    (getPipelineRuns env w owner repo branch build ns xs).1.pipelineruns = [] := by
  cases hp : mergeExtraSelectors env xs [] with
  | fail err => rw [getPipelineRuns_parse_fail env w owner repo branch build ns _ err hp]
  | ok extra =>
    cases h0 : env.pipelineRunsList w.listQueries.length ns
        (currentSelector extra owner repo branch build) with
    | fail err => rw [getPipelineRuns_current_fail env w owner repo branch build ns _ extra err hp h0]
    | ok items =>
      by_cases hi : items = []
      · subst hi
        cases h1 : env.pipelineRunsList (w.listQueries.length + 1) ns
            (legacySelector extra owner repo branch build) with
        | fail err =>
          rw [getPipelineRuns_legacy_fail env w owner repo branch build ns _ extra err hp h0 h1]
        | ok items2 =>
          rw [getPipelineRuns_legacy_ok env w owner repo branch build ns _ extra items2 hp h0 h1] at h
          exact absurd rfl h
      · rw [getPipelineRuns_current_found env w owner repo branch build ns _ extra items hp h0 hi] at h
        exact absurd rfl h

/-- What the streaming phase leaves behind, started before any producer run. -/
theorem stream_summary (env : Env) (w : World) (owner repo branch build ns : String)
    (pa : PipelineActivity) (prs : List PipelineRun) (name : String) (hruns : w.runs = []) :
    ∃ run1 : ProducerRun,
      run1 = ⟨prs, name, (env.GetRunningBuildLogs 0 ns pa prs name).1,
        (env.GetRunningBuildLogs 0 ns pa prs name).2⟩ ∧
      ((¬ RetryCondition run1.err prs ∧
          (stream env w owner repo branch build ns pa prs name).locateCalls = w.locateCalls ∧
          (stream env w owner repo branch build ns pa prs name).runs = [run1] ∧
          (stream env w owner repo branch build ns pa prs name).loggerErr = run1.err) ∨
        (RetryCondition run1.err prs ∧ ∃ res : LocateResult,
          (stream env w owner repo branch build ns pa prs name).locateCalls = w.locateCalls ++
            [⟨owner, repo, branch, build, ns, ["jenkins.io/pipelineType=build"], res⟩] ∧
          res.pipelineruns = [] ∧
          (stream env w owner repo branch build ns pa prs name).runs = [run1] ∧
          (stream env w owner repo branch build ns pa prs name).loggerErr = none) ∨
        (RetryCondition run1.err prs ∧ ∃ res : LocateResult,
          (stream env w owner repo branch build ns pa prs name).locateCalls = w.locateCalls ++
            [⟨owner, repo, branch, build, ns, ["jenkins.io/pipelineType=build"], res⟩] ∧
          res.pipelineruns ≠ [] ∧ res.err = none ∧
          (stream env w owner repo branch build ns pa prs name).runs =
            [run1, ⟨res.pipelineruns, name,
              (env.GetRunningBuildLogs 1 ns pa res.pipelineruns name).1,
              (env.GetRunningBuildLogs 1 ns pa res.pipelineruns name).2⟩] ∧
          (stream env w owner repo branch build ns pa prs name).loggerErr =
            (env.GetRunningBuildLogs 1 ns pa res.pipelineruns name).2)) ∧
      (NeverDone env →
        (stream env w owner repo branch build ns pa prs name).events.map payload =
          w.events.map payload ++
          (((stream env w owner repo branch build ns pa prs name).runs.map (·.lines)).flatten).map
            (fun l => ("log", l)) ++
          closing (stream env w owner repo branch build ns pa prs name).loggerErr) ∧
      (stream env w owner repo branch build ns pa prs name).connection = w.connection := by
  refine ⟨_, rfl, ?_⟩
  obtain ⟨-, s2, -, -, s5, -, s7, s8⟩ := streamLogs_frame env w ns pa prs name
  rw [hruns] at s7 s8
  simp only [List.length_nil, List.nil_append] at s7 s8
  have sp := fun h => streamLogs_payload env h w ns pa prs name
  rw [hruns] at sp
  simp only [List.length_nil] at sp
  unfold stream
  dsimp only
  generalize streamLogs env w ns pa prs name = w1 at *
  obtain ⟨f1, f2, f3, f4, -⟩ := finish_frame env (maybeRetry env w1 owner repo branch build ns pa prs name)
  have fp := fun h => finish_payload env h (maybeRetry env w1 owner repo branch build ns pa prs name)
  rw [f1, f2, f3, f4]
  by_cases hc : RetryCondition w1.loggerErr prs
  · have hm : maybeRetry env w1 owner repo branch build ns pa prs name =
        if (locate env w1 owner repo branch build ns ["jenkins.io/pipelineType=build"]).1.pipelineruns.length > 0 then
          streamLogs env (locate env w1 owner repo branch build ns ["jenkins.io/pipelineType=build"]).2 ns pa
            (locate env w1 owner repo branch build ns ["jenkins.io/pipelineType=build"]).1.pipelineruns name
        else (locate env w1 owner repo branch build ns ["jenkins.io/pipelineType=build"]).2 := by
      unfold maybeRetry
      rw [if_pos ((retryCondition_iff _ _).2 hc)]
    obtain ⟨qs, -, hq⟩ := locate_world env w1 owner repo branch build ns ["jenkins.io/pipelineType=build"]
    obtain ⟨l1, l2, l3, l4, -⟩ := locate_frame env w1 owner repo branch build ns ["jenkins.io/pipelineType=build"]
    have hlc : (locate env w1 owner repo branch build ns ["jenkins.io/pipelineType=build"]).2.locateCalls =
        w1.locateCalls ++ [⟨owner, repo, branch, build, ns, ["jenkins.io/pipelineType=build"],
          (locate env w1 owner repo branch build ns ["jenkins.io/pipelineType=build"]).1⟩] := by
      rw [hq]
    have herr : (locate env w1 owner repo branch build ns ["jenkins.io/pipelineType=build"]).1.err ≠ none →
        (locate env w1 owner repo branch build ns ["jenkins.io/pipelineType=build"]).1.pipelineruns = [] :=
      getPipelineRuns_err_nil env w1 owner repo branch build ns ["jenkins.io/pipelineType=build"]
    generalize locate env w1 owner repo branch build ns ["jenkins.io/pipelineType=build"] = L at *
    rw [s8] at hc
    by_cases hl : L.1.pipelineruns = []
    · rw [if_neg (by simp [hl])] at hm
      rw [hm] at fp ⊢
      refine ⟨Or.inr (Or.inl ⟨hc, L.1, by rw [hlc, s2], hl, by rw [l2, s7], by rw [l3, s8]; exact hc.1⟩),
        ?_, by rw [l4, s5]⟩
      intro h
      rw [fp h, l1, sp h, l2, s7, l3, s8]
      simp
    · rw [if_pos (by simpa [List.length_pos] using hl)] at hm
      rw [hm] at fp ⊢
      obtain ⟨-, t2, -, -, t5, -, t7, t8⟩ := streamLogs_frame env L.2 ns pa L.1.pipelineruns name
      have tp := fun h => streamLogs_payload env h L.2 ns pa L.1.pipelineruns name
      have hnone : L.1.err = none := by
        by_contra hne
        exact hl (herr hne)
      refine ⟨Or.inr (Or.inr ⟨hc, L.1, by rw [t2, hlc, s2], hl, hnone,
        by rw [t7, l2, s7]; rfl, by rw [t8, l2, s7]; rfl⟩), ?_, by rw [t5, l4, s5]⟩
      intro h
      rw [fp h, tp h, l1, sp h, t7, l2, s7, t8]
      simp
  · have hm : maybeRetry env w1 owner repo branch build ns pa prs name = w1 := by
      unfold maybeRetry
      rw [if_neg (fun h => hc ((retryCondition_iff _ _).1 h))]
    rw [hm] at fp ⊢
    rw [s8] at hc
    refine ⟨Or.inl ⟨hc, s2, s7, s8⟩, ?_, s5⟩
    intro h
    rw [fp h, sp h, s7, s8]
    simp

/-! ## The phases of `ServeHTTP` -/

theorem ServeHTTP_lookup_error (env : Env) (r : Request) (e : GetError)
    (h : env.activityGet (requestNamespace env r) (activityName env r) = .error e) :
    ServeHTTP env r =
      if e.isNotFound then httpNotFound (lookedUp env r)
      else httpError (lookedUp env r) e.msg 500 := by
  unfold ServeHTTP
  simp only [h]
  rfl

theorem ServeHTTP_locate_error (env : Env) (r : Request) (pa : PipelineActivity) (err : String)
    (h : env.activityGet (requestNamespace env r) (activityName env r) = .ok pa)
    (he : (initialLocate env r pa).1.err = some err) :
    ServeHTTP env r = httpError (initialLocate env r pa).2 err 500 := by
  unfold initialLocate lookedUp at he
  unfold ServeHTTP
  simp only [h, he]
  rfl

theorem ServeHTTP_too_early (env : Env) (r : Request) (pa : PipelineActivity)
    (h : env.activityGet (requestNamespace env r) (activityName env r) = .ok pa)
    (he : (initialLocate env r pa).1.err = none)
    (hn : (initialLocate env r pa).1.pipelineruns = []) :
    ServeHTTP env r = httpError (initialLocate env r pa).2
      ("no PipelineRun found using labelSelector " ++ (initialLocate env r pa).1.labelSelector) 425 := by
  unfold initialLocate lookedUp at he hn
  unfold ServeHTTP
  simp only [h, he, hn, List.length_nil, if_true]
  rfl

theorem ServeHTTP_connect_fail (env : Env) (r : Request) (pa : PipelineActivity) (resp : Response)
    (h : env.activityGet (requestNamespace env r) (activityName env r) = .ok pa)
    (he : (initialLocate env r pa).1.err = none)
    (hn : (initialLocate env r pa).1.pipelineruns ≠ [])
    (hb : env.brokerConnect (env.xid (initialLocate env r pa).2.idsDrawn) = some resp) :
    ServeHTTP env r =
      { (initialLocate env r pa).2 with
        idsDrawn := (initialLocate env r pa).2.idsDrawn + 1
        connects := (initialLocate env r pa).2.connects ++ [env.xid (initialLocate env r pa).2.idsDrawn]
        response := some resp } := by
  unfold initialLocate lookedUp at he hn hb
  unfold ServeHTTP
  simp only [h, he, hn, hb, List.length_eq_zero, if_false]
  rfl

theorem ServeHTTP_stream (env : Env) (r : Request) (pa : PipelineActivity)
    (h : env.activityGet (requestNamespace env r) (activityName env r) = .ok pa)
    (he : (initialLocate env r pa).1.err = none)
    (hn : (initialLocate env r pa).1.pipelineruns ≠ [])
    (hb : env.brokerConnect (env.xid (initialLocate env r pa).2.idsDrawn) = none) :
    ServeHTTP env r =
      stream env (connected env r pa) r.owner r.repo (requestBranch env r) r.build
        (requestNamespace env r) pa (initialLocate env r pa).1.pipelineruns (activityName env r) := by
  unfold initialLocate lookedUp at he hn hb
  unfold ServeHTTP
  simp only [h, he, hn, hb, List.length_eq_zero, if_false]
  rfl

/-! ## Label maps -/

theorem lookup_mapSet_self (m : LabelMap) (k v : String) :
    (mapSet m k v).lookup k = some v := by
  induction m with
  | nil => simp [mapSet, List.lookup]
  | cons kv rest ih =>
    obtain ⟨k0, v0⟩ := kv
    by_cases h : k0 = k
    · simp [mapSet, h, List.lookup]
    · have h2 : (k == k0) = false := by simpa using fun e => h e.symm
      simp [mapSet, h, List.lookup, h2, ih]

theorem lookup_mapSet_ne (m : LabelMap) (k v k2 : String) (hne : k2 ≠ k) :
    (mapSet m k v).lookup k2 = m.lookup k2 := by
  induction m with
  | nil =>
    have h2 : (k2 == k) = false := by simpa using hne
    simp [mapSet, List.lookup, h2]
  | cons kv rest ih =>
    obtain ⟨k0, v0⟩ := kv
    by_cases h : k0 = k
    · subst h
      have h2 : (k2 == k0) = false := by simpa using hne
      simp [mapSet, List.lookup, h2]
    · by_cases h3 : k2 = k0
      · subst h3
        simp [mapSet, h, List.lookup]
      · have h4 : (k2 == k0) = false := by simpa using h3
        simp [mapSet, h, List.lookup, h4, ih]

theorem Merge_legacy (extra : LabelMap) (owner repo branch build : String) :
    Merge extra (legacyLabelSet owner repo branch build) =
      mapSet (mapSet (mapSet (mapSet (Merge extra []) "owner" owner) "repository" repo)
        "branch" branch) "build" build := rfl

theorem Merge_current (extra : LabelMap) (owner repo branch build : String) :
    Merge extra (currentLabelSet owner repo branch build) =
      mapSet (mapSet (mapSet (mapSet (Merge extra []) "lighthouse.jenkins-x.io/refs.org" owner)
        "lighthouse.jenkins-x.io/refs.repo" repo)
        "lighthouse.jenkins-x.io/branch" branch) "lighthouse.jenkins-x.io/buildNum" build := rfl

theorem initialLocate_frame (env : Env) (r : Request) (pa : PipelineActivity) :
    (initialLocate env r pa).2.events = [] ∧
    (initialLocate env r pa).2.runs = [] ∧
    (initialLocate env r pa).2.connection = none ∧
    (initialLocate env r pa).2.connects = [] ∧
    (initialLocate env r pa).2.pushedAt = [] ∧
    (initialLocate env r pa).2.sendCalls = 0 ∧
    (initialLocate env r pa).2.response = none ∧
    (initialLocate env r pa).2.activityGets = [(requestNamespace env r, activityName env r)] ∧
    (initialLocate env r pa).2.locateCalls =
      [⟨r.owner, r.repo, requestBranch env r, getPipelineRunBuild pa r.build,
        requestNamespace env r, [], (initialLocate env r pa).1⟩] := by
  obtain ⟨l1, l2, -, l4, l5, l6, l7, l8, l9, -⟩ := locate_frame env (lookedUp env r) r.owner r.repo
    (requestBranch env r) (getPipelineRunBuild pa r.build) (requestNamespace env r) []
  obtain ⟨qs, -, hq⟩ := locate_world env (lookedUp env r) r.owner r.repo
    (requestBranch env r) (getPipelineRunBuild pa r.build) (requestNamespace env r) []
  refine ⟨l1, l2, l4, l5, l9, l8, l6, l7, ?_⟩
  unfold initialLocate
  rw [hq]
  rfl

/-- A handler run that opened a viewer connection is the streaming phase run
from the world left by a successful, non-empty initial locate call. -/
theorem ServeHTTP_open (env : Env) (r : Request) (hopen : (ServeHTTP env r).connection ≠ none) :
    ∃ pa, env.activityGet (requestNamespace env r) (activityName env r) = .ok pa ∧
      (initialLocate env r pa).1.err = none ∧
      (initialLocate env r pa).1.pipelineruns ≠ [] ∧
      ServeHTTP env r =
        stream env (connected env r pa) r.owner r.repo (requestBranch env r) r.build
          (requestNamespace env r) pa (initialLocate env r pa).1.pipelineruns (activityName env r) := by
  cases h : env.activityGet (requestNamespace env r) (activityName env r) with
  | error e =>
    exfalso
    apply hopen
    rw [ServeHTTP_lookup_error env r e h]
    by_cases hnf : e.isNotFound = true
    · rw [if_pos hnf]; rfl
    · rw [if_neg hnf]; rfl
  | ok pa =>
    obtain ⟨-, -, i3, -⟩ := initialLocate_frame env r pa
    cases he : (initialLocate env r pa).1.err with
    | some err =>
      exfalso
      apply hopen
      rw [ServeHTTP_locate_error env r pa err h he]
      exact i3
    | none =>
      by_cases hn : (initialLocate env r pa).1.pipelineruns = []
      · exfalso
        apply hopen
        rw [ServeHTTP_too_early env r pa h he hn]
        exact i3
      · cases hb : env.brokerConnect (env.xid (initialLocate env r pa).2.idsDrawn) with
        | some resp =>
          exfalso
          apply hopen
          rw [ServeHTTP_connect_fail env r pa resp h he hn hb]
          exact i3
        | none =>
          exact ⟨pa, rfl, he, hn, ServeHTTP_stream env r pa h he hn hb⟩

/-- The first locate call of a handler run that found the activity is the
initial one. -/
theorem ServeHTTP_first_locate (env : Env) (r : Request) (pa : PipelineActivity)
    (h : env.activityGet (requestNamespace env r) (activityName env r) = .ok pa) :
    (ServeHTTP env r).locateCalls.head? =
      some ⟨r.owner, r.repo, requestBranch env r, getPipelineRunBuild pa r.build,
        requestNamespace env r, [], (initialLocate env r pa).1⟩ := by
  obtain ⟨-, i2, -, -, -, -, -, -, i9⟩ := initialLocate_frame env r pa
  cases he : (initialLocate env r pa).1.err with
  | some err =>
    rw [ServeHTTP_locate_error env r pa err h he]
    show (initialLocate env r pa).2.locateCalls.head? = _
    rw [i9]; rfl
  | none =>
    by_cases hn : (initialLocate env r pa).1.pipelineruns = []
    · rw [ServeHTTP_too_early env r pa h he hn]
      show (initialLocate env r pa).2.locateCalls.head? = _
      rw [i9]; rfl
    · cases hb : env.brokerConnect (env.xid (initialLocate env r pa).2.idsDrawn) with
      | some resp =>
        rw [ServeHTTP_connect_fail env r pa resp h he hn hb]
        show (initialLocate env r pa).2.locateCalls.head? = _
        rw [i9]; rfl
      | none =>
        rw [ServeHTTP_stream env r pa h he hn hb]
        have hruns : (connected env r pa).runs = [] := i2
        have hlc : (connected env r pa).locateCalls =
            [⟨r.owner, r.repo, requestBranch env r, getPipelineRunBuild pa r.build,
              requestNamespace env r, [], (initialLocate env r pa).1⟩] := i9
        obtain ⟨run1, -, hcases, -, -⟩ := stream_summary env (connected env r pa) r.owner r.repo
          (requestBranch env r) r.build (requestNamespace env r) pa
          (initialLocate env r pa).1.pipelineruns (activityName env r) hruns
        rcases hcases with ⟨-, hl, -, -⟩ | ⟨-, res, hl, -⟩ | ⟨-, res, hl, -⟩
        · rw [hl, hlc]; rfl
        · rw [hl, hlc]; rfl
        · rw [hl, hlc]; rfl

/-! ## Pushes and done signals -/

theorem pushInv_congr (env : Env) (w w2 : World) (h1 : w2.events = w.events)
    (h2 : w2.pushedAt = w.pushedAt) (h3 : w2.sendCalls = w.sendCalls) (h : PushInv env w) :
    PushInv env w2 := by
  unfold PushInv at *
  rw [h1, h2, h3]
  exact h

theorem send_pushInv (env : Env) (w : World) (t d : String) (h : PushInv env w) :
    PushInv env (send env w t d) := by
  obtain ⟨hlen, hall⟩ := h
  unfold send
  by_cases h1 : env.connDone w.sendCalls = true
  · simp only [h1, if_true]
    exact ⟨hlen, fun i hi => ⟨Nat.lt_succ_of_lt (hall i hi).1, (hall i hi).2⟩⟩
  · by_cases h2 : env.ctxDone w.sendCalls = true
    · simp only [h1, h2, if_true, if_false]
      exact ⟨hlen, fun i hi => ⟨Nat.lt_succ_of_lt (hall i hi).1, (hall i hi).2⟩⟩
    · simp only [h1, h2, if_false]
      refine ⟨by simp [hlen], ?_⟩
      intro i hi
      rcases List.mem_append.1 hi with hi | hi
      · exact ⟨Nat.lt_succ_of_lt (hall i hi).1, (hall i hi).2⟩
      · obtain rfl := List.mem_singleton.1 hi
        exact ⟨Nat.lt_succ_self _, by simpa using h1, by simpa using h2⟩

theorem sendLines_pushInv (env : Env) (lines : List String) :
    ∀ w : World, PushInv env w → PushInv env (sendLines env w lines) := by
  induction lines with
  | nil => intro w h; exact h
  | cons l ls ih =>
    intro w h
    rw [sendLines_cons]
    exact ih _ (send_pushInv env w "log" l h)

theorem streamLogs_pushInv (env : Env) (w : World) (ns : String) (pa : PipelineActivity)
    (prs : List PipelineRun) (name : String) (h : PushInv env w) :
    PushInv env (streamLogs env w ns pa prs name) := by
  rw [streamLogs_eq]
  exact pushInv_congr env _ _ rfl rfl rfl
    (sendLines_pushInv env _ _ (pushInv_congr env w _ rfl rfl rfl h))

theorem locate_pushInv (env : Env) (w : World) (owner repo branch build ns : String)
    (xs : List String) (h : PushInv env w) :
    PushInv env (locate env w owner repo branch build ns xs).2 := by
  obtain ⟨l1, -, -, -, -, -, -, l8, l9, -⟩ := locate_frame env w owner repo branch build ns xs
  exact pushInv_congr env w _ l1 l9 l8 h

theorem stream_pushInv (env : Env) (w : World) (owner repo branch build ns : String)
    (pa : PipelineActivity) (prs : List PipelineRun) (name : String) (h : PushInv env w) :
    PushInv env (stream env w owner repo branch build ns pa prs name) := by
  have h1 := streamLogs_pushInv env w ns pa prs name h
  have h2 : PushInv env (maybeRetry env (streamLogs env w ns pa prs name) owner repo branch build
      ns pa prs name) := by
    unfold maybeRetry
    split
    · dsimp only
      split
      · exact streamLogs_pushInv env _ ns pa _ name (locate_pushInv env _ _ _ _ _ _ _ h1)
      · exact locate_pushInv env _ _ _ _ _ _ _ h1
    · exact h1
  unfold stream finish
  dsimp only
  refine pushInv_congr env _ _ rfl rfl rfl (send_pushInv env _ _ _ ?_)
  split
  · exact send_pushInv env _ _ _ h2
  · exact h2

theorem ServeHTTP_pushInv (env : Env) (r : Request) : PushInv env (ServeHTTP env r) := by
  have h0 : PushInv env (lookedUp env r) := ⟨rfl, fun i hi => absurd hi (List.not_mem_nil i)⟩
  cases h : env.activityGet (requestNamespace env r) (activityName env r) with
  | error e =>
    rw [ServeHTTP_lookup_error env r e h]
    split
    · exact h0
    · exact h0
  | ok pa =>
    have hi : PushInv env (initialLocate env r pa).2 := locate_pushInv env _ _ _ _ _ _ _ h0
    cases he : (initialLocate env r pa).1.err with
    | some err =>
      rw [ServeHTTP_locate_error env r pa err h he]
      exact hi
    | none =>
      by_cases hn : (initialLocate env r pa).1.pipelineruns = []
      · rw [ServeHTTP_too_early env r pa h he hn]
        exact hi
      · cases hb : env.brokerConnect (env.xid (initialLocate env r pa).2.idsDrawn) with
        | some resp =>
          rw [ServeHTTP_connect_fail env r pa resp h he hn hb]
          exact hi
        | none =>
          rw [ServeHTTP_stream env r pa h he hn hb]
          exact stream_pushInv env _ _ _ _ _ _ _ _ _ hi

/-! ## The branch that reaches the collaborators -/

theorem branchInv_congr (owner repo branch : String) (gets : List (String × String))
    (w w2 : World) (h1 : w2.activityGets = w.activityGets) (h2 : w2.locateCalls = w.locateCalls)
    (h3 : w2.listQueries = w.listQueries) (h : BranchInv owner repo branch gets w) :
    BranchInv owner repo branch gets w2 := by
  unfold BranchInv at *
  rw [h1, h2, h3]
  exact h

theorem getPipelineRuns_selectors (env : Env) (w : World) (owner repo branch build ns : String)
    (xs : List String) :
    ∃ qs : List ListQuery,
      (getPipelineRuns env w owner repo branch build ns xs).2 =
        { w with listQueries := w.listQueries ++ qs } ∧
      ∀ q ∈ qs, SelectorUses owner repo branch q.labelSelector := by
  have hcur : ∀ (extra : LabelMap) (res : Outcome (List PipelineRun)),
      SelectorUses owner repo branch
        (ListQuery.mk ns (currentSelector extra owner repo branch build) res).labelSelector :=
    fun extra _ => ⟨extra, build, Or.inl rfl⟩
  have hleg : ∀ (extra : LabelMap) (res : Outcome (List PipelineRun)),
      SelectorUses owner repo branch
        (ListQuery.mk ns (legacySelector extra owner repo branch build) res).labelSelector :=
    fun extra _ => ⟨extra, build, Or.inr rfl⟩
  cases hp : mergeExtraSelectors env xs [] with
  | fail err =>
    rw [getPipelineRuns_parse_fail env w owner repo branch build ns _ err hp]
    exact ⟨[], by simp, by simp⟩
  | ok extra =>
    cases h0 : env.pipelineRunsList w.listQueries.length ns
        (currentSelector extra owner repo branch build) with
    | fail err =>
      rw [getPipelineRuns_current_fail env w owner repo branch build ns _ extra err hp h0]
      refine ⟨[_], rfl, ?_⟩
      intro q hq
      rw [List.mem_singleton.1 hq]
      exact hcur extra _
    | ok items =>
      by_cases hi : items = []
      · subst hi
        cases h1 : env.pipelineRunsList (w.listQueries.length + 1) ns
            (legacySelector extra owner repo branch build) with
        | fail err =>
          rw [getPipelineRuns_legacy_fail env w owner repo branch build ns _ extra err hp h0 h1]
          refine ⟨[_, _], rfl, ?_⟩
          intro q hq
          rcases List.mem_cons.1 hq with hq | hq
          · rw [hq]; exact hcur extra _
          · rw [List.mem_singleton.1 hq]; exact hleg extra _
        | ok items2 =>
          rw [getPipelineRuns_legacy_ok env w owner repo branch build ns _ extra items2 hp h0 h1]
          refine ⟨[_, _], rfl, ?_⟩
          intro q hq
          rcases List.mem_cons.1 hq with hq | hq
          · rw [hq]; exact hcur extra _
          · rw [List.mem_singleton.1 hq]; exact hleg extra _
      · rw [getPipelineRuns_current_found env w owner repo branch build ns _ extra items hp h0 hi]
        refine ⟨[_], rfl, ?_⟩
        intro q hq
        rw [List.mem_singleton.1 hq]
        exact hcur extra _

theorem locate_branchInv (env : Env) (w : World) (owner repo branch build ns : String)
    (xs : List String) (gets : List (String × String))
    (h : BranchInv owner repo branch gets w) :
    BranchInv owner repo branch gets (locate env w owner repo branch build ns xs).2 := by
  obtain ⟨qs, hq, hsel⟩ := getPipelineRuns_selectors env w owner repo branch build ns xs
  obtain ⟨h1, h2, h3⟩ := h
  unfold locate
  simp only [hq]
  refine ⟨h1, ?_, ?_⟩
  · intro c hc
    rcases List.mem_append.1 hc with hc | hc
    · exact h2 c hc
    · rw [List.mem_singleton.1 hc]
  · intro q hq2
    rcases List.mem_append.1 hq2 with hq2 | hq2
    · exact h3 q hq2
    · exact hsel q hq2

theorem streamLogs_branchInv (env : Env) (w : World) (ns : String) (pa : PipelineActivity)
    (prs : List PipelineRun) (name owner repo branch : String) (gets : List (String × String))
    (h : BranchInv owner repo branch gets w) :
    BranchInv owner repo branch gets (streamLogs env w ns pa prs name) := by
  obtain ⟨s1, s2, s3, -⟩ := streamLogs_frame env w ns pa prs name
  exact branchInv_congr owner repo branch gets w _ s1 s2 s3 h

theorem stream_branchInv (env : Env) (w : World) (owner repo branch build ns : String)
    (pa : PipelineActivity) (prs : List PipelineRun) (name : String)
    (gets : List (String × String)) (h : BranchInv owner repo branch gets w) :
    BranchInv owner repo branch gets (stream env w owner repo branch build ns pa prs name) := by
  have h1 := streamLogs_branchInv env w ns pa prs name owner repo branch gets h
  have h2 : BranchInv owner repo branch gets
      (maybeRetry env (streamLogs env w ns pa prs name) owner repo branch build ns pa prs name) := by
    unfold maybeRetry
    split
    · dsimp only
      split
      · exact streamLogs_branchInv env _ ns pa _ name owner repo branch gets
          (locate_branchInv env _ _ _ _ _ _ _ gets h1)
      · exact locate_branchInv env _ _ _ _ _ _ _ gets h1
    · exact h1
  unfold stream
  dsimp only
  obtain ⟨-, -, f3, -, f5, f6⟩ := finish_frame env
    (maybeRetry env (streamLogs env w ns pa prs name) owner repo branch build ns pa prs name)
  exact branchInv_congr owner repo branch gets _ _ f6 f3 f5 h2

theorem ServeHTTP_branchInv (env : Env) (r : Request) :
    BranchInv r.owner r.repo (requestBranch env r)
      [(requestNamespace env r, activityName env r)] (ServeHTTP env r) := by
  have h0 : BranchInv r.owner r.repo (requestBranch env r)
      [(requestNamespace env r, activityName env r)] (lookedUp env r) :=
    ⟨rfl, fun c hc => absurd hc (List.not_mem_nil c), fun q hq => absurd hq (List.not_mem_nil q)⟩
  cases h : env.activityGet (requestNamespace env r) (activityName env r) with
  | error e =>
    rw [ServeHTTP_lookup_error env r e h]
    split
    · exact h0
    · exact h0
  | ok pa =>
    have hi : BranchInv r.owner r.repo (requestBranch env r)
        [(requestNamespace env r, activityName env r)] (initialLocate env r pa).2 :=
      locate_branchInv env _ _ _ _ _ _ _ _ h0
    cases he : (initialLocate env r pa).1.err with
    | some err =>
      rw [ServeHTTP_locate_error env r pa err h he]
      exact hi
    | none =>
      by_cases hn : (initialLocate env r pa).1.pipelineruns = []
      · rw [ServeHTTP_too_early env r pa h he hn]
        exact hi
      · cases hb : env.brokerConnect (env.xid (initialLocate env r pa).2.idsDrawn) with
        | some resp =>
          rw [ServeHTTP_connect_fail env r pa resp h he hn hb]
          exact hi
        | none =>
          rw [ServeHTTP_stream env r pa h he hn hb]
          exact stream_branchInv env _ _ _ _ _ _ _ _ _ _
            (branchInv_congr _ _ _ _ _ (connected env r pa) rfl rfl rfl hi)

/-! ## Verified properties of the handler -/

/-- C8: `getPipelineRunBuild pa b` is the value of the label
`lighthouse.jenkins-x.io/buildNum` when the activity has a label map holding
that key with a non-empty value, and is the fallback `b` when the label map is
nil, the key is absent, or its value is empty. -/
theorem getPipelineRunBuild_spec (pa : PipelineActivity) (b : String) :
    (∀ m v, pa.Labels = some m → m.lookup "lighthouse.jenkins-x.io/buildNum" = some v →
      v ≠ "" → getPipelineRunBuild pa b = v) ∧
    (pa.Labels = none → getPipelineRunBuild pa b = b) ∧
    (∀ m, pa.Labels = some m → m.lookup "lighthouse.jenkins-x.io/buildNum" = none →
      getPipelineRunBuild pa b = b) ∧
    (∀ m, pa.Labels = some m → m.lookup "lighthouse.jenkins-x.io/buildNum" = some "" →
      getPipelineRunBuild pa b = b) := by
  refine ⟨?_, ?_, ?_, ?_⟩
  · intro m v hm hv hne
    simp [getPipelineRunBuild, hm, mapIndex, hv, hne]
  · intro hm
    simp [getPipelineRunBuild, hm]
  · intro m hm hv
    simp [getPipelineRunBuild, hm, mapIndex, hv]
  · intro m hm hv
    simp [getPipelineRunBuild, hm, mapIndex, hv]

/-- Witness for C8: a scheduler build label overrides the build number `5`, and
a nil label map, an absent label and an empty label leave it. -/
theorem getPipelineRunBuild_spec_witness :
    getPipelineRunBuild ⟨"a", some [("lighthouse.jenkins-x.io/buildNum", "1629")]⟩ "5" = "1629" ∧
    getPipelineRunBuild ⟨"a", none⟩ "5" = "5" ∧
    getPipelineRunBuild ⟨"a", some [("owner", "acme")]⟩ "5" = "5" ∧
    getPipelineRunBuild ⟨"a", some [("lighthouse.jenkins-x.io/buildNum", "")]⟩ "5" = "5" :=
  ⟨(getPipelineRunBuild_spec ⟨"a", some [("lighthouse.jenkins-x.io/buildNum", "1629")]⟩ "5").1
      _ _ rfl (by decide) (by decide),
    (getPipelineRunBuild_spec ⟨"a", none⟩ "5").2.1 rfl,
    (getPipelineRunBuild_spec ⟨"a", some [("owner", "acme")]⟩ "5").2.2.1 _ rfl (by decide),
    (getPipelineRunBuild_spec ⟨"a", some [("lighthouse.jenkins-x.io/buildNum", "")]⟩ "5").2.2.2
      _ rfl (by decide)⟩

/-- C4 (evaluation at the failing input): with the activity present and both
list queries answering with an empty list, the handler answers 425, the last
query made is the legacy one, and the message carries the current-schema
selector and does not contain the legacy selector. -/
theorem too_early_names_current_selector :
    (ServeHTTP emptyClusterEnv demoReq).listQueries =
      [⟨"jx", "lighthouse.jenkins-x.io/branch=main,lighthouse.jenkins-x.io/buildNum=5,lighthouse.jenkins-x.io/refs.org=acme,lighthouse.jenkins-x.io/refs.repo=widgets", .ok []⟩,
       ⟨"jx", "branch=main,build=5,owner=acme,repository=widgets", .ok []⟩] ∧
    (ServeHTTP emptyClusterEnv demoReq).response =
      some ⟨425, "no PipelineRun found using labelSelector lighthouse.jenkins-x.io/branch=main,lighthouse.jenkins-x.io/buildNum=5,lighthouse.jenkins-x.io/refs.org=acme,lighthouse.jenkins-x.io/refs.repo=widgets\n"⟩ ∧
    ¬ ("branch=main,build=5,owner=acme,repository=widgets".toList <:+:
      "no PipelineRun found using labelSelector lighthouse.jenkins-x.io/branch=main,lighthouse.jenkins-x.io/buildNum=5,lighthouse.jenkins-x.io/refs.org=acme,lighthouse.jenkins-x.io/refs.repo=widgets\n".toList) := by
  refine ⟨by decide, by decide, by decide⟩

/-- C9: the list queries `qs` made by one call of `getPipelineRuns` are at most
two.  When none of them fails: the second (legacy-schema) query is made exactly
when the first (current-schema) query answered with zero records; a non-empty
first answer is returned as it is, after that single query; otherwise the
answer of the legacy query, possibly empty, is returned.  Whenever the extra
selectors parse, the first query is made with the current-schema selector and
a second one, if any, with the legacy-schema selector. -/
theorem getPipelineRuns_schema_fallback (env : Env) (w : World)
    (owner repo branch build ns : String) (xs : List String) :
    ∃ qs : List ListQuery,
      (getPipelineRuns env w owner repo branch build ns xs).2.listQueries = w.listQueries ++ qs ∧
      qs.length ≤ 2 ∧
      ((∀ q ∈ qs, ∃ items, q.result = .ok items) →
        ∀ q0 rest items0, qs = q0 :: rest → q0.result = .ok items0 →
          (rest ≠ [] ↔ items0 = []) ∧
          (items0 ≠ [] →
            (getPipelineRuns env w owner repo branch build ns xs).1.pipelineruns = items0 ∧
            (getPipelineRuns env w owner repo branch build ns xs).1.err = none) ∧
          (items0 = [] → ∃ q1 items1, rest = [q1] ∧ q1.result = .ok items1 ∧
            (getPipelineRuns env w owner repo branch build ns xs).1.pipelineruns = items1 ∧
            (getPipelineRuns env w owner repo branch build ns xs).1.err = none)) ∧
      (∀ extra, mergeExtraSelectors env xs [] = .ok extra →
        ∃ q0 rest, qs = q0 :: rest ∧ q0.ns = ns ∧
          q0.labelSelector = FormatLabels (Merge extra (currentLabelSet owner repo branch build)) ∧
          q0.result = env.pipelineRunsList w.listQueries.length ns q0.labelSelector ∧
          ∀ q1 ∈ rest, q1.ns = ns ∧
            q1.labelSelector = FormatLabels (Merge extra (legacyLabelSet owner repo branch build)) ∧
            q1.result = env.pipelineRunsList (w.listQueries.length + 1) ns q1.labelSelector) := by
  cases hp : mergeExtraSelectors env xs [] with
  | fail err =>
    rw [getPipelineRuns_parse_fail env w owner repo branch build ns _ err hp]
    refine ⟨[], by simp, by simp, ?_, ?_⟩
    · intro _ q0 rest items0 h
      exact absurd h (by simp)
    · intro extra h
      exact absurd h (by simp)
  | ok extra =>
    cases h0 : env.pipelineRunsList w.listQueries.length ns
        (currentSelector extra owner repo branch build) with
    | fail err =>
      rw [getPipelineRuns_current_fail env w owner repo branch build ns _ extra err hp h0]
      refine ⟨[_], rfl, by simp, ?_, ?_⟩
      · intro _ q0 rest items0 h hq
        simp only [List.cons.injEq] at h
        obtain ⟨rfl, rfl⟩ := h
        exact absurd hq (by simp)
      · intro extra2 h
        obtain rfl : extra = extra2 := by simpa using h
        exact ⟨_, [], rfl, rfl, rfl, h0.symm, by simp⟩
    | ok items =>
      by_cases hi : items = []
      · subst hi
        cases h1 : env.pipelineRunsList (w.listQueries.length + 1) ns
            (legacySelector extra owner repo branch build) with
        | fail err =>
          rw [getPipelineRuns_legacy_fail env w owner repo branch build ns _ extra err hp h0 h1]
          refine ⟨[_, _], rfl, by simp, ?_, ?_⟩
          · intro hall
            obtain ⟨items, hbad⟩ := hall _ (List.mem_cons_of_mem _ (List.mem_singleton.2 rfl))
            exact absurd hbad (by simp)
          · intro extra2 h
            obtain rfl : extra = extra2 := by simpa using h
            refine ⟨_, _, rfl, rfl, rfl, h0.symm, ?_⟩
            intro q1 hq1
            obtain rfl := List.mem_singleton.1 hq1
            exact ⟨rfl, rfl, h1.symm⟩
        | ok items2 =>
          rw [getPipelineRuns_legacy_ok env w owner repo branch build ns _ extra items2 hp h0 h1]
          refine ⟨[_, _], rfl, by simp, ?_, ?_⟩
          · intro _ q0 rest items0 h hq
            simp only [List.cons.injEq] at h
            obtain ⟨rfl, rfl⟩ := h
            obtain rfl : items0 = [] := by simpa using hq.symm
            exact ⟨by simp, fun hne => absurd rfl hne, fun _ => ⟨_, items2, rfl, rfl, rfl, rfl⟩⟩
          · intro extra2 h
            obtain rfl : extra = extra2 := by simpa using h
            refine ⟨_, _, rfl, rfl, rfl, h0.symm, ?_⟩
            intro q1 hq1
            obtain rfl := List.mem_singleton.1 hq1
            exact ⟨rfl, rfl, h1.symm⟩
      · rw [getPipelineRuns_current_found env w owner repo branch build ns _ extra items hp h0 hi]
        refine ⟨[_], rfl, by simp, ?_, ?_⟩
        · intro _ q0 rest items0 h hq
          simp only [List.cons.injEq] at h
          obtain ⟨rfl, rfl⟩ := h
          obtain rfl : items = items0 := by simpa using hq
          exact ⟨by simp [hi], fun _ => ⟨rfl, rfl⟩, fun he => absurd he hi⟩
        · intro extra2 h
          obtain rfl : extra = extra2 := by simpa using h
          exact ⟨_, [], rfl, rfl, rfl, h0.symm, by simp⟩

/-- Witness for C9: against the cluster of `demoEnv` the current-schema query
finds the build execution, which is returned after that single query. -/
theorem getPipelineRuns_schema_fallback_witness :
    (getPipelineRuns demoEnv World.init "acme" "widgets" "main" "5" "jx" []).1.pipelineruns =
        [buildRun] ∧
    (getPipelineRuns demoEnv World.init "acme" "widgets" "main" "5" "jx" []).1.err = none := by
  obtain ⟨qs, hqs, -, hok, -⟩ :=
    getPipelineRuns_schema_fallback demoEnv World.init "acme" "widgets" "main" "5" "jx" []
  have hval : (getPipelineRuns demoEnv World.init "acme" "widgets" "main" "5" "jx" []).2.listQueries =
      [⟨"jx", "lighthouse.jenkins-x.io/branch=main,lighthouse.jenkins-x.io/buildNum=5,lighthouse.jenkins-x.io/refs.org=acme,lighthouse.jenkins-x.io/refs.repo=widgets", .ok [buildRun]⟩] := by
    decide
  rw [hval] at hqs
  have hq : qs = [⟨"jx", "lighthouse.jenkins-x.io/branch=main,lighthouse.jenkins-x.io/buildNum=5,lighthouse.jenkins-x.io/refs.org=acme,lighthouse.jenkins-x.io/refs.repo=widgets", .ok [buildRun]⟩] := by
    simpa [World.init] using hqs.symm
  subst hq
  exact (hok (by intro q hq; rw [List.mem_singleton.1 hq]; exact ⟨_, rfl⟩) _ _ _ rfl rfl).2.1
    (by decide)

/-- C3 (counterexample): a call with the extra filter
`jenkins.io/pipelineType=build` whose current-schema query answers with an
empty list makes its legacy-schema query with a selector that still carries
the extra filter, not with the selector of the four legacy keys alone. -/
theorem legacy_query_keeps_extra_filter :
    (getPipelineRuns emptyClusterEnv World.init "acme" "widgets" "main" "5" "jx"
        ["jenkins.io/pipelineType=build"]).2.listQueries =
      [⟨"jx", "jenkins.io/pipelineType=build,lighthouse.jenkins-x.io/branch=main,lighthouse.jenkins-x.io/buildNum=5,lighthouse.jenkins-x.io/refs.org=acme,lighthouse.jenkins-x.io/refs.repo=widgets", .ok []⟩,
       ⟨"jx", "branch=main,build=5,jenkins.io/pipelineType=build,owner=acme,repository=widgets", .ok []⟩] ∧
    FormatLabels (legacyLabelSet "acme" "widgets" "main" "5") =
      "branch=main,build=5,owner=acme,repository=widgets" ∧
    (getPipelineRuns emptyClusterEnv World.init "acme" "widgets" "main" "5" "jx"
        ["jenkins.io/pipelineType=build"]).2.listQueries.map (·.labelSelector) ≠
      [FormatLabels (Merge [("jenkins.io/pipelineType", "build")]
          (currentLabelSet "acme" "widgets" "main" "5")),
        FormatLabels (legacyLabelSet "acme" "widgets" "main" "5")] := by
  refine ⟨by decide, by decide, by decide⟩

/-- C3 (amended): when the extra selectors parse to the label set `extra` and
the current-schema query answers with an empty list, the legacy-schema query is
made with the selector formatted from `extra` merged with the four legacy
pairs.  In that merged set the four legacy keys carry the coordinate values and
every other key carries the value it has in `extra`, so the extra filters are
applied to the legacy query as well. -/
theorem getPipelineRuns_legacy_selector (env : Env) (w : World)
    (owner repo branch build ns : String) (xs : List String) (extra : LabelMap)
    (hp : mergeExtraSelectors env xs [] = .ok extra)
    (h0 : env.pipelineRunsList w.listQueries.length ns
      (FormatLabels (Merge extra (currentLabelSet owner repo branch build))) = .ok []) :
    ∃ q0 q1 : ListQuery,
      (getPipelineRuns env w owner repo branch build ns xs).2.listQueries =
        w.listQueries ++ [q0, q1] ∧
      q0.labelSelector = FormatLabels (Merge extra (currentLabelSet owner repo branch build)) ∧
      q1.ns = ns ∧
      q1.labelSelector = FormatLabels (Merge extra (legacyLabelSet owner repo branch build)) ∧
      (Merge extra (legacyLabelSet owner repo branch build)).lookup "owner" = some owner ∧
      (Merge extra (legacyLabelSet owner repo branch build)).lookup "repository" = some repo ∧
      (Merge extra (legacyLabelSet owner repo branch build)).lookup "branch" = some branch ∧
      (Merge extra (legacyLabelSet owner repo branch build)).lookup "build" = some build ∧
      ∀ k, k ≠ "owner" → k ≠ "repository" → k ≠ "branch" → k ≠ "build" →
        (Merge extra (legacyLabelSet owner repo branch build)).lookup k =
          (Merge extra []).lookup k := by
  have hlook : (Merge extra (legacyLabelSet owner repo branch build)).lookup "owner" = some owner ∧
      (Merge extra (legacyLabelSet owner repo branch build)).lookup "repository" = some repo ∧
      (Merge extra (legacyLabelSet owner repo branch build)).lookup "branch" = some branch ∧
      (Merge extra (legacyLabelSet owner repo branch build)).lookup "build" = some build ∧
      ∀ k, k ≠ "owner" → k ≠ "repository" → k ≠ "branch" → k ≠ "build" →
        (Merge extra (legacyLabelSet owner repo branch build)).lookup k =
          (Merge extra []).lookup k := by
    rw [Merge_legacy]
    refine ⟨?_, ?_, ?_, ?_, ?_⟩
    · rw [lookup_mapSet_ne _ _ _ _ (by decide), lookup_mapSet_ne _ _ _ _ (by decide),
        lookup_mapSet_ne _ _ _ _ (by decide), lookup_mapSet_self]
    · rw [lookup_mapSet_ne _ _ _ _ (by decide), lookup_mapSet_ne _ _ _ _ (by decide),
        lookup_mapSet_self]
    · rw [lookup_mapSet_ne _ _ _ _ (by decide), lookup_mapSet_self]
    · rw [lookup_mapSet_self]
    · intro k h1 h2 h3 h4
      rw [lookup_mapSet_ne _ _ _ _ h4, lookup_mapSet_ne _ _ _ _ h3, lookup_mapSet_ne _ _ _ _ h2,
        lookup_mapSet_ne _ _ _ _ h1]
  cases h1 : env.pipelineRunsList (w.listQueries.length + 1) ns
      (legacySelector extra owner repo branch build) with
  | fail err =>
    rw [getPipelineRuns_legacy_fail env w owner repo branch build ns _ extra err hp h0 h1]
    exact ⟨_, _, rfl, rfl, rfl, rfl, hlook⟩
  | ok items =>
    rw [getPipelineRuns_legacy_ok env w owner repo branch build ns _ extra items hp h0 h1]
    exact ⟨_, _, rfl, rfl, rfl, rfl, hlook⟩

/-- Witness for C3 (amended): the call of the counterexample. -/
theorem getPipelineRuns_legacy_selector_witness :
    ∃ q0 q1 : ListQuery,
      (getPipelineRuns emptyClusterEnv World.init "acme" "widgets" "main" "5" "jx"
        ["jenkins.io/pipelineType=build"]).2.listQueries = World.init.listQueries ++ [q0, q1] ∧
      q1.labelSelector = FormatLabels (Merge [("jenkins.io/pipelineType", "build")]
        (legacyLabelSet "acme" "widgets" "main" "5")) := by
  obtain ⟨q0, q1, h, -, -, hs, -⟩ :=
    getPipelineRuns_legacy_selector emptyClusterEnv World.init "acme" "widgets" "main" "5" "jx"
      ["jenkins.io/pipelineType=build"] [("jenkins.io/pipelineType", "build")] (by decide) rfl
  exact ⟨q0, q1, h, hs⟩

/-- C1: in a handler run that opens a viewer connection and in which no done
signal is ever observed, the events pushed are, in order: one `log` event per
line of every producer run (first run, then the retry run if there is one),
then one `error` event exactly when `logger.Err()` is non-nil after streaming,
then the `EOF` event with data `End Of Feed`.  There are one or two producer
runs, each recorded with what the producer yielded, the final `logger.Err()` is
that of the last run, and at most one event has type `error`. -/
theorem ServeHTTP_event_sequence (env : Env) (r : Request)
    (hnd : ∀ k, env.connDone k = false ∧ env.ctxDone k = false)
    (hopen : (ServeHTTP env r).connection ≠ none) :
    (ServeHTTP env r).events.map payload =
        (((ServeHTTP env r).runs.map (·.lines)).flatten).map (fun l => ("log", l)) ++
        (match (ServeHTTP env r).loggerErr with
          | some err => [("error", err)]
          | none => []) ++
        [("EOF", "End Of Feed")] ∧
    (∃ pa run1 later,
      env.activityGet (requestNamespace env r) (activityName env r) = .ok pa ∧
      (ServeHTTP env r).runs = run1 :: later ∧ later.length ≤ 1 ∧
      (∀ i run, (ServeHTTP env r).runs[i]? = some run →
        run.lines = (env.GetRunningBuildLogs i (requestNamespace env r) pa run.pipelineruns
          run.name).1 ∧
        run.err = (env.GetRunningBuildLogs i (requestNamespace env r) pa run.pipelineruns
          run.name).2) ∧
      (ServeHTTP env r).loggerErr = ((run1 :: later).getLast (by simp)).err) ∧
    (((ServeHTTP env r).events.map payload).filter (fun p => p.1 = "error")).length ≤ 1 := by
  obtain ⟨pa, hget, -, -, heq⟩ := ServeHTTP_open env r hopen
  obtain ⟨i1, i2, -⟩ := initialLocate_frame env r pa
  have hruns : (connected env r pa).runs = [] := i2
  have hev : (connected env r pa).events = [] := i1
  obtain ⟨run1, hrun1, hcases, hpay, -⟩ := stream_summary env (connected env r pa) r.owner r.repo
    (requestBranch env r) r.build (requestNamespace env r) pa
    (initialLocate env r pa).1.pipelineruns (activityName env r) hruns
  rw [← heq] at hcases hpay
  have hmain := hpay hnd
  rw [hev] at hmain
  simp only [List.map_nil, List.nil_append, closing] at hmain
  rw [← List.append_assoc] at hmain
  refine ⟨hmain, ?_, ?_⟩
  · refine ⟨pa, run1, ?_⟩
    rcases hcases with ⟨-, -, hr, hl⟩ | ⟨hc, res, -, -, hr, hl⟩ | ⟨-, res, -, -, -, hr, hl⟩
    · refine ⟨[], hget, hr, by simp, ?_, by simpa using hl⟩
      intro i run hi
      rw [hr] at hi
      match i, hi with
      | 0, hi =>
        obtain rfl : run1 = run := by simpa using hi
        rw [hrun1]
        exact ⟨rfl, rfl⟩
    · refine ⟨[], hget, hr, by simp, ?_, by simpa using hl.trans hc.1.symm⟩
      intro i run hi
      rw [hr] at hi
      match i, hi with
      | 0, hi =>
        obtain rfl : run1 = run := by simpa using hi
        rw [hrun1]
        exact ⟨rfl, rfl⟩
    · refine ⟨[_], hget, hr, by simp, ?_, by simpa using hl⟩
      intro i run hi
      rw [hr] at hi
      match i, hi with
      | 0, hi =>
        obtain rfl : run1 = run := by simpa using hi
        rw [hrun1]
        exact ⟨rfl, rfl⟩
      | 1, hi =>
        obtain rfl := by simpa using hi
        exact ⟨rfl, rfl⟩
  · rw [hmain]
    cases (ServeHTTP env r).loggerErr with
    | none => simp [List.filter_map, Function.comp_def]
    | some e => simp [List.filter_map, Function.comp_def]

/-- Witness for C1: the end-to-end example of the specification (a single build
execution, three lines, no producer error). -/
theorem ServeHTTP_event_sequence_witness :
    (ServeHTTP demoEnv demoReq).events.map payload =
      [("log", "starting"), ("log", "building"), ("log", "done"), ("EOF", "End Of Feed")] := by
  have h := (ServeHTTP_event_sequence demoEnv demoReq (fun _ => ⟨rfl, rfl⟩) (by decide)).1
  rw [h]
  decide

/-- C2: in a handler run that opens a viewer connection, let `c0` be the
initial locate call and `run1` the first producer run (made on the executions
`c0` returned).  A further locate call is made exactly when `run1` left no
producer error and `c0` returned exactly one execution whose label
`jenkins.io/pipelineType` is `meta`.  There is at most one such call; it has
the owner, repository, branch and namespace of `c0`, the extra selector
`jenkins.io/pipelineType=build` and the build of the request, while `c0` has
the build given by `getPipelineRunBuild`.  A second producer run is made
exactly when that call returned a non-empty set, on that set, and is the last
one.  With two or more initial executions there is no further locate call. -/
theorem ServeHTTP_retry_locate (env : Env) (r : Request)
    (hopen : (ServeHTTP env r).connection ≠ none) :
    ∃ (pa : PipelineActivity) (c0 : LocateCall) (rest : List LocateCall) (run1 : ProducerRun)
        (later : List ProducerRun),
      env.activityGet (requestNamespace env r) (activityName env r) = .ok pa ∧
      (ServeHTTP env r).locateCalls = c0 :: rest ∧
      (ServeHTTP env r).runs = run1 :: later ∧
      c0.build = getPipelineRunBuild pa r.build ∧ c0.extraSelectors = [] ∧
      run1.pipelineruns = c0.result.pipelineruns ∧
      (rest ≠ [] ↔
        (run1.err = none ∧
          ∃ p, c0.result.pipelineruns = [p] ∧ mapIndex p.Labels "jenkins.io/pipelineType" = "meta")) ∧
      (∀ c ∈ rest, rest = [c] ∧
        c.owner = c0.owner ∧ c.repo = c0.repo ∧ c.branch = c0.branch ∧ c.ns = c0.ns ∧
        c.extraSelectors = ["jenkins.io/pipelineType=build"] ∧ c.build = r.build ∧
        (later ≠ [] ↔ c.result.pipelineruns ≠ []) ∧
        ∀ run2 ∈ later, later = [run2] ∧ run2.pipelineruns = c.result.pipelineruns) ∧
      (rest = [] → later = []) ∧
      (2 ≤ c0.result.pipelineruns.length → rest = []) := by
  obtain ⟨pa, hget, -, -, heq⟩ := ServeHTTP_open env r hopen
  obtain ⟨-, i2, -, -, -, -, -, -, i9⟩ := initialLocate_frame env r pa
  have hruns : (connected env r pa).runs = [] := i2
  have hcalls : (connected env r pa).locateCalls =
      [⟨r.owner, r.repo, requestBranch env r, getPipelineRunBuild pa r.build,
        requestNamespace env r, [], (initialLocate env r pa).1⟩] := i9
  obtain ⟨run1, hrun1, hcases, -, -⟩ := stream_summary env (connected env r pa) r.owner r.repo
    (requestBranch env r) r.build (requestNamespace env r) pa
    (initialLocate env r pa).1.pipelineruns (activityName env r) hruns
  rw [← heq, hcalls] at hcases
  have hlen : ∀ p : PipelineRun, (initialLocate env r pa).1.pipelineruns = [p] →
      ¬ 2 ≤ (initialLocate env r pa).1.pipelineruns.length := by
    intro p hp
    rw [hp]
    simp
  rcases hcases with ⟨hc, hl, hr, -⟩ | ⟨hc, res, hl, hres, hr, -⟩ | ⟨hc, res, hl, hres, -, hr, -⟩
  · refine ⟨pa, _, [], run1, [], hget, hl, hr, rfl, rfl, by rw [hrun1], ?_, by simp, by simp, by simp⟩
    constructor
    · intro h
      exact absurd rfl h
    · intro h
      exact absurd h hc
  · refine ⟨pa, _, [_], run1, [], hget, hl, hr, rfl, rfl, by rw [hrun1], ?_, ?_, by simp, ?_⟩
    · exact ⟨fun _ => hc, fun _ => by simp⟩
    · intro c hcmem
      obtain rfl := List.mem_singleton.1 hcmem
      exact ⟨rfl, rfl, rfl, rfl, rfl, rfl, rfl, by simp [hres], by simp⟩
    · intro h2
      obtain ⟨-, p, hp, -⟩ := hc
      exact absurd h2 (hlen p hp)
  · refine ⟨pa, _, [_], run1, [_], hget, hl, hr, rfl, rfl, by rw [hrun1], ?_, ?_, by simp, ?_⟩
    · exact ⟨fun _ => hc, fun _ => by simp⟩
    · intro c hcmem
      obtain rfl := List.mem_singleton.1 hcmem
      refine ⟨rfl, rfl, rfl, rfl, rfl, rfl, rfl, by simp [hres], ?_⟩
      intro run2 hmem
      obtain rfl := List.mem_singleton.1 hmem
      exact ⟨rfl, rfl⟩
    · intro h2
      obtain ⟨-, p, hp, -⟩ := hc
      exact absurd h2 (hlen p hp)

/-- Witness for C2: after a meta execution streamed without error the handler
makes one more locate call, restricted to `jenkins.io/pipelineType=build` and
with the build `5` of the request rather than the scheduler build `1629`. -/
theorem ServeHTTP_retry_locate_witness :
    ∃ c0 c1 : LocateCall, (ServeHTTP metaEnv demoReq).locateCalls = [c0, c1] ∧
      c0.build = "1629" ∧ c1.build = "5" ∧
      c1.extraSelectors = ["jenkins.io/pipelineType=build"] := by
  obtain ⟨pa, c0, rest, run1, later, -, hl, -, -, -, -, -, hrest, -, -⟩ :=
    ServeHTTP_retry_locate metaEnv demoReq (by decide)
  have hval : (ServeHTTP metaEnv demoReq).locateCalls.map (·.build) = ["1629", "5"] := by decide
  rw [hl] at hval
  match rest, hval, hrest with
  | [c1], hval, hrest =>
    obtain ⟨-, -, -, -, -, hx, hb, -⟩ := hrest c1 (List.mem_singleton.2 rfl)
    simp only [List.map_cons, List.map_nil, List.cons.injEq, and_true] at hval
    exact ⟨c0, c1, hl, hval.1, hval.2, hx⟩

/-- C10: in a handler run that opens a viewer connection, observes no done
signal, and makes the retry locate call `c1`, if `c1` returned an error or an
empty set then the producer ran only once, `logger.Err()` is nil, and the
events are the `log` events of that single run followed by the `EOF` event
alone. -/
theorem ServeHTTP_retry_failure_swallowed (env : Env) (r : Request)
    (hnd : ∀ k, env.connDone k = false ∧ env.ctxDone k = false)
    (hopen : (ServeHTTP env r).connection ≠ none) (c0 c1 : LocateCall)
    (hcalls : (ServeHTTP env r).locateCalls = [c0, c1])
    (hfail : c1.result.err ≠ none ∨ c1.result.pipelineruns = []) :
    ∃ run1 : ProducerRun,
      (ServeHTTP env r).runs = [run1] ∧
      (ServeHTTP env r).loggerErr = none ∧
      (ServeHTTP env r).events.map payload =
        run1.lines.map (fun l => ("log", l)) ++ [("EOF", "End Of Feed")] := by
  obtain ⟨pa, hget, -, -, heq⟩ := ServeHTTP_open env r hopen
  obtain ⟨i1, i2, -, -, -, -, -, -, i9⟩ := initialLocate_frame env r pa
  have hruns : (connected env r pa).runs = [] := i2
  have hev : (connected env r pa).events = [] := i1
  have hlc : (connected env r pa).locateCalls =
      [⟨r.owner, r.repo, requestBranch env r, getPipelineRunBuild pa r.build,
        requestNamespace env r, [], (initialLocate env r pa).1⟩] := i9
  obtain ⟨run1, -, hcases, hpay, -⟩ := stream_summary env (connected env r pa) r.owner r.repo
    (requestBranch env r) r.build (requestNamespace env r) pa
    (initialLocate env r pa).1.pipelineruns (activityName env r) hruns
  rw [← heq, hlc] at hcases
  rw [← heq] at hpay
  have hmain := hpay hnd
  rw [hev] at hmain
  rcases hcases with ⟨-, hl, -, -⟩ | ⟨-, res, -, -, hr, he⟩ | ⟨-, res, hl, hres, herr, -, -⟩
  · rw [hcalls] at hl
    simp at hl
  · refine ⟨run1, hr, he, ?_⟩
    rw [hmain, hr, he]
    simp [closing]
  · rw [hcalls] at hl
    simp only [List.singleton_append, List.cons.injEq, and_true] at hl
    obtain ⟨-, rfl⟩ := hl
    rcases hfail with h | h
    · exact absurd herr h
    · exact absurd h hres

/-- Witness for C10: the build execution never shows up after the meta
execution, and the viewer gets the meta line and the end of feed. -/
theorem ServeHTTP_retry_failure_swallowed_witness :
    ∃ run1 : ProducerRun,
      (ServeHTTP metaOnlyEnv demoReq).runs = [run1] ∧
      (ServeHTTP metaOnlyEnv demoReq).loggerErr = none ∧
      (ServeHTTP metaOnlyEnv demoReq).events.map payload =
        run1.lines.map (fun l => ("log", l)) ++ [("EOF", "End Of Feed")] :=
  ServeHTTP_retry_failure_swallowed metaOnlyEnv demoReq (fun _ => ⟨rfl, rfl⟩) (by decide)
    ⟨"acme", "widgets", "main", "1629", "jx", [],
      ⟨[metaRun], "lighthouse.jenkins-x.io/branch=main,lighthouse.jenkins-x.io/buildNum=1629,lighthouse.jenkins-x.io/refs.org=acme,lighthouse.jenkins-x.io/refs.repo=widgets", none⟩⟩
    ⟨"acme", "widgets", "main", "5", "jx", ["jenkins.io/pipelineType=build"],
      ⟨[], "jenkins.io/pipelineType=build,lighthouse.jenkins-x.io/branch=main,lighthouse.jenkins-x.io/buildNum=5,lighthouse.jenkins-x.io/refs.org=acme,lighthouse.jenkins-x.io/refs.repo=widgets", none⟩⟩
    (by decide) (Or.inr rfl)

/-- C7: a failure before streaming ends the handler with a status response and
no stream.  An activity lookup failing as not-found gives 404 and no locate
call or list query is made; any other lookup error gives 500 with the error
text; an error of the first locate call gives 500 with the error text; an empty
result of the first locate call gives 425 with the message naming the returned
selector.  In all four cases `Broker.Connect` is not called, no connection is
open, `send` is never called, no event is pushed and the producer is not run. -/
theorem ServeHTTP_prestream_failures (env : Env) (r : Request) :
    (∀ e, env.activityGet (requestNamespace env r) (activityName env r) = .error e →
      e.isNotFound = true →
      (ServeHTTP env r).response = some ⟨404, "404 page not found\n"⟩ ∧
      (ServeHTTP env r).locateCalls = [] ∧ (ServeHTTP env r).listQueries = [] ∧
      (ServeHTTP env r).connects = [] ∧ (ServeHTTP env r).connection = none ∧
      (ServeHTTP env r).sendCalls = 0 ∧ (ServeHTTP env r).events = [] ∧
      (ServeHTTP env r).runs = []) ∧
    (∀ e, env.activityGet (requestNamespace env r) (activityName env r) = .error e →
      e.isNotFound = false →
      (ServeHTTP env r).response = some ⟨500, e.msg ++ "\n"⟩ ∧
      (ServeHTTP env r).connects = [] ∧ (ServeHTTP env r).connection = none ∧
      (ServeHTTP env r).sendCalls = 0 ∧ (ServeHTTP env r).events = [] ∧
      (ServeHTTP env r).runs = []) ∧
    (∀ c err, (ServeHTTP env r).locateCalls.head? = some c → c.result.err = some err →
      (ServeHTTP env r).response = some ⟨500, err ++ "\n"⟩ ∧
      (ServeHTTP env r).connects = [] ∧ (ServeHTTP env r).connection = none ∧
      (ServeHTTP env r).sendCalls = 0 ∧ (ServeHTTP env r).events = [] ∧
      (ServeHTTP env r).runs = []) ∧
    (∀ c, (ServeHTTP env r).locateCalls.head? = some c → c.result.err = none →
      c.result.pipelineruns = [] →
      (ServeHTTP env r).response = some ⟨425,
        "no PipelineRun found using labelSelector " ++ c.result.labelSelector ++ "\n"⟩ ∧
      (ServeHTTP env r).connects = [] ∧ (ServeHTTP env r).connection = none ∧
      (ServeHTTP env r).sendCalls = 0 ∧ (ServeHTTP env r).events = [] ∧
      (ServeHTTP env r).runs = []) := by
  have hnone : ∀ e, env.activityGet (requestNamespace env r) (activityName env r) = .error e →
      (ServeHTTP env r).locateCalls = [] := by
    intro e h
    rw [ServeHTTP_lookup_error env r e h]
    by_cases hnf : e.isNotFound = true
    · rw [if_pos hnf]; rfl
    · rw [if_neg hnf]; rfl
  have hfirst : ∀ c, (ServeHTTP env r).locateCalls.head? = some c →
      ∃ pa, env.activityGet (requestNamespace env r) (activityName env r) = .ok pa ∧
        c.result = (initialLocate env r pa).1 := by
    intro c hc
    cases h : env.activityGet (requestNamespace env r) (activityName env r) with
    | error e =>
      rw [hnone e h] at hc
      simp at hc
    | ok pa =>
      rw [ServeHTTP_first_locate env r pa h] at hc
      refine ⟨pa, rfl, ?_⟩
      obtain rfl := Option.some.inj hc
      rfl
  refine ⟨?_, ?_, ?_, ?_⟩
  · intro e h hnf
    rw [ServeHTTP_lookup_error env r e h, if_pos hnf]
    exact ⟨rfl, rfl, rfl, rfl, rfl, rfl, rfl, rfl⟩
  · intro e h hnf
    rw [ServeHTTP_lookup_error env r e h, if_neg (by simp [hnf])]
    exact ⟨rfl, rfl, rfl, rfl, rfl, rfl⟩
  · intro c err hc he
    obtain ⟨pa, hget, hres⟩ := hfirst c hc
    rw [hres] at he
    obtain ⟨i1, i2, i3, i4, -, i6, -⟩ := initialLocate_frame env r pa
    rw [ServeHTTP_locate_error env r pa err hget he]
    exact ⟨rfl, i4, i3, i6, i1, i2⟩
  · intro c hc he hn
    obtain ⟨pa, hget, hres⟩ := hfirst c hc
    rw [hres] at he hn ⊢
    obtain ⟨i1, i2, i3, i4, -, i6, -⟩ := initialLocate_frame env r pa
    rw [ServeHTTP_too_early env r pa hget he hn]
    exact ⟨by simp [httpError, String.append_assoc], i4, i3, i6, i1, i2⟩

/-- Witness for C7: the four failures on concrete clusters. -/
theorem ServeHTTP_prestream_failures_witness :
    (ServeHTTP notFoundEnv demoReq).response = some ⟨404, "404 page not found\n"⟩ ∧
    (ServeHTTP storeDownEnv demoReq).response = some ⟨500, "connection refused\n"⟩ ∧
    (ServeHTTP listDownEnv demoReq).response = some ⟨500, "pipelineruns is forbidden\n"⟩ ∧
    ((ServeHTTP emptyClusterEnv demoReq).response.map (·.status) = some 425 ∧
      (ServeHTTP emptyClusterEnv demoReq).connects = []) :=
  ⟨((ServeHTTP_prestream_failures notFoundEnv demoReq).1
      ⟨true, "pipelineactivity not found"⟩ rfl rfl).1,
    ((ServeHTTP_prestream_failures storeDownEnv demoReq).2.1
      ⟨false, "connection refused"⟩ rfl rfl).1,
    ((ServeHTTP_prestream_failures listDownEnv demoReq).2.2.1
      ⟨"acme", "widgets", "main", "5", "jx", [],
        ⟨[], "lighthouse.jenkins-x.io/branch=main,lighthouse.jenkins-x.io/buildNum=5,lighthouse.jenkins-x.io/refs.org=acme,lighthouse.jenkins-x.io/refs.repo=widgets", some "pipelineruns is forbidden"⟩⟩
      "pipelineruns is forbidden" (by decide) rfl).1,
    (fun h => ⟨by rw [h.1]; rfl, h.2.1⟩)
      ((ServeHTTP_prestream_failures emptyClusterEnv demoReq).2.2.2
        ⟨"acme", "widgets", "main", "5", "jx", [],
          ⟨[], "lighthouse.jenkins-x.io/branch=main,lighthouse.jenkins-x.io/buildNum=5,lighthouse.jenkins-x.io/refs.org=acme,lighthouse.jenkins-x.io/refs.repo=widgets", none⟩⟩
        (by decide) rfl rfl)⟩

/-- C6: a call of `send` whose check finds the connection's done signal or
the request context's done signal fired pushes no event; a call whose check
finds neither fired pushes exactly one event, with the given type and data.
Consequently, in any handler run in which one of the signals is fired at the
`k`-th `send` call and at every later one, every pushed event was pushed by one
of the first `k` calls. -/
theorem send_respects_done (env : Env) (w : World) (eventType eventData : String) :
    ((env.connDone w.sendCalls = true ∨ env.ctxDone w.sendCalls = true) →
      (send env w eventType eventData).events = w.events) ∧
    ((env.connDone w.sendCalls = false ∧ env.ctxDone w.sendCalls = false) →
      ∃ ev, (send env w eventType eventData).events = w.events ++ [ev] ∧
        ev.Event = eventType ∧ ev.Data = eventData) ∧
    (∀ (r : Request) (k : Nat),
      (∀ j, k ≤ j → env.connDone j = true ∨ env.ctxDone j = true) →
      (ServeHTTP env r).pushedAt.length = (ServeHTTP env r).events.length ∧
      ∀ i ∈ (ServeHTTP env r).pushedAt, i < k) := by
  refine ⟨?_, ?_, ?_⟩
  · intro h
    unfold send
    rcases h with h | h
    · simp [h]
    · by_cases h1 : env.connDone w.sendCalls = true
      · simp [h1]
      · simp [h1, h]
  · rintro ⟨h1, h2⟩
    unfold send
    simp only [h1, h2]
    exact ⟨_, rfl, rfl, rfl⟩
  · intro r k hk
    obtain ⟨hlen, hall⟩ := ServeHTTP_pushInv env r
    refine ⟨hlen, ?_⟩
    intro i hi
    by_contra hge
    obtain ⟨-, hc, hx⟩ := hall i hi
    rcases hk i (Nat.le_of_not_lt hge) with h | h
    · rw [hc] at h; exact Bool.noConfusion h
    · rw [hx] at h; exact Bool.noConfusion h

/-- Witness for C6: with the connection closed from the third `send` call on,
a `send` at call index 2 pushes nothing, the first `send` pushes its event, and
the run pushes events only at call indices below 2. -/
theorem send_respects_done_witness :
    (send hangUpEnv { World.init with sendCalls := 2 } "log" "late").events = [] ∧
    (∃ ev, (send hangUpEnv World.init "log" "starting").events = World.init.events ++ [ev] ∧
      ev.Event = "log" ∧ ev.Data = "starting") ∧
    (∀ i ∈ (ServeHTTP hangUpEnv demoReq).pushedAt, i < 2) :=
  ⟨(send_respects_done hangUpEnv { World.init with sendCalls := 2 } "log" "late").1
      (Or.inl (by decide)),
    (send_respects_done hangUpEnv World.init "log" "starting").2.1 ⟨by decide, by decide⟩,
    ((send_respects_done hangUpEnv World.init "log" "starting").2.2 demoReq 2
      (fun j hj => Or.inl (by simp [hangUpEnv, hj]))).2⟩

/-- C5 (counterexample): the branch token `Pr-7` starts with `pr-` when
compared case-insensitively and its upper-cased form is `PR-7`, yet the handler
uses `Pr-7` unchanged in the locate call and in the label selector. -/
theorem mixed_case_pr_branch_kept :
    "pr-".toList <+: ("Pr-7".toList.map Char.toLower) ∧
    demoEnv.ToUpper "Pr-7" = "PR-7" ∧
    (ServeHTTP demoEnv ⟨"acme", "widgets", "Pr-7", "5", ""⟩).locateCalls.map (·.branch) =
      ["Pr-7"] ∧
    (ServeHTTP demoEnv ⟨"acme", "widgets", "Pr-7", "5", ""⟩).listQueries.map (·.labelSelector) =
      ["lighthouse.jenkins-x.io/branch=Pr-7,lighthouse.jenkins-x.io/buildNum=5,lighthouse.jenkins-x.io/refs.org=acme,lighthouse.jenkins-x.io/refs.repo=widgets"] ∧
    (ServeHTTP demoEnv ⟨"acme", "widgets", "Pr-7", "5", ""⟩).locateCalls.map (·.branch) ≠
      [demoEnv.ToUpper "Pr-7"] := by
  refine ⟨by decide, by decide, by decide, by decide, by decide⟩

/-- C5 (amended): let `B` be the upper-cased branch token when the token starts
with the lower-case prefix `pr-` compared case-sensitively, and the token itself
otherwise.  The handler looks the activity up under the valid name of
`owner-repo-B-build`, every locate call is made with branch `B`, and every list
query uses a selector formatted from label pairs whose branch label, in the
current and in the legacy schema, has the value `B`. -/
theorem ServeHTTP_branch_normalisation (env : Env) (r : Request) :
    ∃ B : String,
      ("pr-".toList <+: r.branch.toList → B = env.ToUpper r.branch) ∧
      (¬ "pr-".toList <+: r.branch.toList → B = r.branch) ∧
      (ServeHTTP env r).activityGets =
        [(requestNamespace env r,
          env.ToValidName (r.owner ++ "-" ++ r.repo ++ "-" ++ B ++ "-" ++ r.build))] ∧
      (∀ c ∈ (ServeHTTP env r).locateCalls, c.branch = B) ∧
      (∀ q ∈ (ServeHTTP env r).listQueries, ∃ (extra : LabelMap) (build : String),
        q.labelSelector = FormatLabels (Merge extra (currentLabelSet r.owner r.repo B build)) ∨
        q.labelSelector = FormatLabels (Merge extra (legacyLabelSet r.owner r.repo B build))) ∧
      (∀ (extra : LabelMap) (build : String),
        (Merge extra (currentLabelSet r.owner r.repo B build)).lookup
          "lighthouse.jenkins-x.io/branch" = some B ∧
        (Merge extra (legacyLabelSet r.owner r.repo B build)).lookup "branch" = some B) := by
  obtain ⟨h1, h2, h3⟩ := ServeHTTP_branchInv env r
  refine ⟨requestBranch env r, ?_, ?_, h1, h2, h3, ?_⟩
  · intro hp
    unfold requestBranch
    rw [if_pos (List.isPrefixOf_iff_prefix.2 hp)]
  · intro hp
    unfold requestBranch
    rw [if_neg (fun h => hp (List.isPrefixOf_iff_prefix.1 h))]
  · intro extra build
    constructor
    · rw [Merge_current, lookup_mapSet_ne _ _ _ _ (by decide), lookup_mapSet_self]
    · rw [Merge_legacy, lookup_mapSet_ne _ _ _ _ (by decide), lookup_mapSet_self]

/-- Witness for C5 (amended): the token `pr-7` reaches the locate call as
`PR-7`, and the token `main` reaches it unchanged. -/
theorem ServeHTTP_branch_normalisation_witness :
    (∀ c ∈ (ServeHTTP demoEnv ⟨"acme", "widgets", "pr-7", "5", ""⟩).locateCalls,
      c.branch = "PR-7") ∧
    (∀ c ∈ (ServeHTTP demoEnv demoReq).locateCalls, c.branch = "main") := by
  constructor
  · obtain ⟨B, hup, -, -, hc, -⟩ :=
      ServeHTTP_branch_normalisation demoEnv ⟨"acme", "widgets", "pr-7", "5", ""⟩
    have hB : B = "PR-7" := (hup (by decide)).trans (by decide)
    rw [← hB]
    exact hc
  · obtain ⟨B, -, hkeep, -, hc, -⟩ := ServeHTTP_branch_normalisation demoEnv demoReq
    have hB : B = "main" := hkeep (by decide)
    rw [← hB]
    exact hc

end LiveLogs
